import Mathlib

/-!
# Verification of the Doc_Scraper crawl engine

Shallow embedding of the crawl engine of the Doc_Scraper repository
(`document_scraper/crawler.py`, `document_scraper/scraper.py`,
`document_scraper/utils.py`) together with proofs about its
URL normalization, link classification, URL filtering, retry discipline
and crawl-loop state management.

Python strings are modelled as Lean `String` (operating on the
underlying `List Char`; byte-level UTF-8 details of percent-encoding
are modelled per code point, which agrees with CPython on ASCII input).
Python sets are modelled as duplicate-free `List`s, dicts as
association lists preserving insertion order, and `urllib.parse`
functions are embedded following CPython's implementation.
-/

namespace DocScraper

/-! ## Python string primitives -/

/-- The characters of a string (Python treats `str` as a sequence). -/
def strToList (s : String) : List Char := s.data

/-- Build a string back from characters. -/
def strOfList (l : List Char) : String := ⟨l⟩

/-- Tests that `hay` starts with `needle` (`str.startswith`), on character lists. -/
def listStartsWith : List Char → List Char → Bool
  | _, [] => true
  | [], _ :: _ => false
  | c :: cs, d :: ds => c = d && listStartsWith cs ds

/-- Python `needle in hay` substring test, on character lists. -/
def listContainsSub (hay needle : List Char) : Bool :=
  match hay with
  | [] => needle.isEmpty
  | _ :: rest => listStartsWith hay needle || listContainsSub rest needle

/-- Python `s.startswith(pre)`. -/
def pyStartsWith (s pre : String) : Bool := listStartsWith s.data pre.data

/-- Python `s.endswith(suf)`. -/
def pyEndsWith (s suf : String) : Bool := listStartsWith s.data.reverse suf.data.reverse

/-- Python `needle in hay` for strings. -/
def pyContains (hay needle : String) : Bool := listContainsSub hay.data needle.data

/-- Python `s.lower()` (ASCII case folding, as all patterns involved are ASCII). -/
def pyLower (s : String) : String := strOfList (s.data.map Char.toLower)

/-- Python `s.split(c)`: splits at every occurrence, keeping empty pieces
(`"".split('/') == ['']`, `"/".split('/') == ['', '']`). -/
def splitOnChar (c : Char) : List Char → List (List Char)
  | [] => [[]]
  | d :: rest =>
    let r := splitOnChar c rest
    if d = c then [] :: r
    else
      match r with
      | [] => [[d]]
      | h :: t => (d :: h) :: t

/-- Python `s.split(c)` on strings. -/
def pySplit (s : String) (c : Char) : List String := (splitOnChar c s.data).map strOfList

/-- Python `s.strip(c)` for a single strip character. -/
def stripChar (c : Char) (s : String) : String :=
  strOfList (((s.data.dropWhile (· = c)).reverse.dropWhile (· = c)).reverse)

/-- Python `s.rstrip(c)` for a single strip character. -/
def rstripChar (c : Char) (s : String) : String :=
  strOfList ((s.data.reverse.dropWhile (· = c)).reverse)

/-- Split a character list at the first occurrence of `c`:
returns the part before, and `some` part after when `c` occurs. -/
def breakAtChar (c : Char) : List Char → List Char × Option (List Char)
  | [] => ([], none)
  | d :: rest =>
    if d = c then ([], some rest)
    else
      let (b, a) := breakAtChar c rest
      (d :: b, a)

/-- Join strings with a separator (Python `sep.join(list)`). -/
def joinWith (sep : String) : List String → String
  | [] => ""
  | [x] => x
  | x :: y :: rest => x ++ sep ++ joinWith sep (y :: rest)

/-! ## `urllib.parse` embedding

Mirrors CPython's `urlsplit` / `urlparse` / `urlunparse` / `urljoin` /
`parse_qs` / `urlencode` / `quote_plus`, which the scraped code relies on. -/

/-- The six components of CPython's `ParseResult`. -/
structure UrlParts where
  scheme : String := ""
  netloc : String := ""
  path : String := ""
  params : String := ""
  query : String := ""
  fragment : String := ""
deriving DecidableEq, Repr

/-- A valid URL scheme name: a letter followed by letters, digits, `+`, `-`, `.`. -/
def validScheme (l : List Char) : Bool :=
  match l with
  | [] => false
  | c :: rest => c.isAlpha && rest.all (fun d => d.isAlphanum || d = '+' || d = '-' || d = '.')

/-- Split off `scheme:` when the text before the first `:` is a valid scheme. -/
def splitScheme (l : List Char) : Option (List Char × List Char) :=
  match breakAtChar ':' l with
  | (before, some after) => if validScheme before then some (before, after) else none
  | (_, none) => none

/-- CPython `urlsplit(url, scheme=default)` (with `allow_fragments=True`). -/
def urlsplitD (url : String) (defaultScheme : String) : UrlParts :=
  let l := url.data
  let (scheme, rest) :=
    match splitScheme l with
    | some (s, r) => (strOfList (s.map Char.toLower), r)
    | none => (defaultScheme, l)
  let (netloc, rest) :=
    if listStartsWith rest ['/', '/'] then
      let r := rest.drop 2
      (strOfList (r.takeWhile fun c => c ≠ '/' && c ≠ '?' && c ≠ '#'),
       r.dropWhile fun c => c ≠ '/' && c ≠ '?' && c ≠ '#')
    else ("", rest)
  let (rest, fragment) :=
    match breakAtChar '#' rest with
    | (b, some a) => (b, a)
    | (b, none) => (b, [])
  let (path, query) :=
    match breakAtChar '?' rest with
    | (b, some a) => (b, a)
    | (b, none) => (b, [])
  { scheme := scheme, netloc := netloc, path := strOfList path,
    params := "", query := strOfList query, fragment := strOfList fragment }

/-- Schemes for which CPython's `urlparse` splits `;params` off the path. -/
def usesParams : List String :=
  ["", "ftp", "hdl", "prospero", "http", "imap", "https", "shttp", "rtsp",
   "rtspu", "sip", "sips", "mms", "sftp", "tel"]

/-- CPython `_splitparams`: split `;params` out of the last path segment. -/
def splitParamsStr (path : String) : String × String :=
  let l := path.data
  let (head, lastSeg) :=
    match breakAtChar '/' l.reverse with
    | (afterRev, some beforeRev) => (beforeRev.reverse ++ ['/'], afterRev.reverse)
    | (_, none) => (([] : List Char), l)
  match breakAtChar ';' lastSeg with
  | (b, some a) => (strOfList (head ++ b), strOfList a)
  | (_, none) => (path, "")

/-- CPython `urlparse(url, scheme=default)`. -/
def urlparseD (url defaultScheme : String) : UrlParts :=
  let p := urlsplitD url defaultScheme
  if usesParams.contains p.scheme && pyContains p.path ";" then
    let (path2, params) := splitParamsStr p.path
    { p with path := path2, params := params }
  else p

/-- CPython `urlparse(url)`. -/
def urlparse (url : String) : UrlParts := urlparseD url ""

/-- CPython `urlunparse` (composed with `urlunsplit`).
`ParseResult.geturl()` is this function applied to the parts. -/
def urlunparse (p : UrlParts) : String :=
  let url := if p.params ≠ "" then p.path ++ ";" ++ p.params else p.path
  let url :=
    if p.netloc ≠ "" ∨ pyStartsWith url "//" then
      "//" ++ p.netloc ++ (if url ≠ "" ∧ ¬ pyStartsWith url "/" then "/" ++ url else url)
    else url
  let url := if p.scheme ≠ "" then p.scheme ++ ":" ++ url else url
  let url := if p.query ≠ "" then url ++ "?" ++ p.query else url
  if p.fragment ≠ "" then url ++ "#" ++ p.fragment else url

/-- Hexadecimal value of a digit, if any. -/
def hexVal (c : Char) : Option Nat :=
  if '0' ≤ c ∧ c ≤ '9' then some (c.toNat - '0'.toNat)
  else if 'a' ≤ c ∧ c ≤ 'f' then some (c.toNat - 'a'.toNat + 10)
  else if 'A' ≤ c ∧ c ≤ 'F' then some (c.toNat - 'A'.toNat + 10)
  else none

/-- Uppercase hex digit for a value `< 16`. -/
def hexDigit (n : Nat) : Char :=
  if n < 10 then Char.ofNat ('0'.toNat + n) else Char.ofNat ('A'.toNat + n - 10)

/-- Characters `quote_plus` leaves unescaped (alphanumerics and `_.-~`). -/
def isSafeChar (c : Char) : Bool := c.isAlphanum || c = '_' || c = '.' || c = '-' || c = '~'

/-- CPython `quote_plus` (per code point; agrees with CPython on ASCII). -/
def quote_plus (s : String) : String :=
  strOfList (s.data.foldr
    (fun c acc =>
      (if c = ' ' then ['+']
       else if isSafeChar c then [c]
       else ['%', hexDigit (c.toNat / 16 % 16), hexDigit (c.toNat % 16)]) ++ acc) [])

/-- CPython `unquote_plus` (per code point; agrees with CPython on ASCII). -/
def unquotePlusList : List Char → List Char
  | [] => []
  | '+' :: rest => ' ' :: unquotePlusList rest
  | '%' :: h1 :: h2 :: rest =>
    match hexVal h1, hexVal h2 with
    | some a, some b => Char.ofNat (16 * a + b) :: unquotePlusList rest
    | _, _ => '%' :: unquotePlusList (h1 :: h2 :: rest)
  | c :: rest => c :: unquotePlusList rest

/-- CPython `parse_qsl(qs)` with default `keep_blank_values=False`:
empty pieces, pieces without `=` and pieces with an empty value are skipped. -/
def parse_qsl (qs : String) : List (String × String) :=
  (pySplit qs '&').filterMap fun nv =>
    if nv = "" then none
    else
      match breakAtChar '=' nv.data with
      | (_, none) => none
      | (n, some v) =>
        if v.isEmpty then none
        else some (strOfList (unquotePlusList n), strOfList (unquotePlusList v))

/-- CPython `parse_qs(qs)`: a dict from names to lists of values,
in insertion order (first occurrence of each name). -/
def parse_qs (qs : String) : List (String × List String) :=
  (parse_qsl qs).foldl
    (fun acc kv =>
      if acc.any (fun e => e.1 = kv.1) then
        acc.map fun e => if e.1 = kv.1 then (e.1, e.2 ++ [kv.2]) else e
      else acc ++ [(kv.1, [kv.2])]) []

/-- CPython `urlencode(d, doseq=True)` on a dict of value lists. -/
def urlencode (l : List (String × List String)) : String :=
  joinWith "&" (l.foldr
    (fun kvs acc => kvs.2.map (fun v => quote_plus kvs.1 ++ "=" ++ quote_plus v) ++ acc) [])

/-- Schemes that allow relative resolution in `urljoin`. -/
def usesRelative : List String :=
  ["", "ftp", "http", "gopher", "nntp", "imap", "wais", "file", "https",
   "shttp", "mms", "prospero", "rtsp", "rtspu", "sftp", "svn", "svn+ssh", "ws", "wss"]

/-- Schemes that carry a network location in `urljoin`. -/
def usesNetloc : List String :=
  ["", "ftp", "http", "gopher", "nntp", "telnet", "imap", "wais", "file",
   "mms", "https", "shttp", "snews", "prospero", "rtsp", "rtspu", "rsync",
   "svn", "svn+ssh", "sftp", "nfs", "git", "git+ssh", "ws", "wss"]

/-- CPython `urljoin(base, url)`. -/
def urljoin (base url : String) : String :=
  if base = "" then url
  else if url = "" then base
  else
    let b := urlparseD base ""
    let u := urlparseD url b.scheme
    if u.scheme ≠ b.scheme ∨ ¬ usesRelative.contains u.scheme then url
    else if usesNetloc.contains u.scheme ∧ u.netloc ≠ "" then urlunparse u
    else
      let netloc := if usesNetloc.contains u.scheme then b.netloc else u.netloc
      if u.path = "" ∧ u.params = "" then
        let query := if u.query = "" then b.query else u.query
        urlunparse { scheme := u.scheme, netloc := netloc, path := b.path,
                     params := b.params, query := query, fragment := u.fragment }
      else
        let baseParts0 := pySplit b.path '/'
        let baseParts := if baseParts0.getLast? ≠ some "" then baseParts0.dropLast else baseParts0
        let segments :=
          if pyStartsWith u.path "/" then pySplit u.path '/'
          else
            match baseParts ++ pySplit u.path '/' with
            | [] => []
            | x :: rest =>
              match rest.reverse with
              | [] => [x]
              | last :: midRev => x :: (midRev.reverse.filter fun s => s ≠ "") ++ [last]
        let resolved := segments.foldl
          (fun acc seg =>
            if seg = ".." then acc.dropLast
            else if seg = "." then acc
            else acc ++ [seg]) []
        let resolved :=
          if segments.getLast? = some "." ∨ segments.getLast? = some ".." then resolved ++ [""]
          else resolved
        let joined := joinWith "/" resolved
        urlunparse { scheme := u.scheme, netloc := netloc,
                     path := if joined = "" then "/" else joined,
                     params := u.params, query := u.query, fragment := u.fragment }

/-! ## `document_scraper/utils.py` -/

/-- Embedding of `get_domain` (utils.py): scheme plus network location. -/
def get_domain (url : String) : String :=
  let p := urlparse url
  p.scheme ++ "://" ++ p.netloc

/-- Embedding of `normalize_url` (utils.py): drop non-content URLs, strip the fragment
when no query string is present, resolve relative URLs against the base. -/
def normalize_url (url baseUrl : String) : Option String :=
  if url = "" || pyStartsWith url "#" || pyStartsWith url "javascript:" ||
     pyStartsWith url "mailto:" || pyStartsWith url "tel:" then
    none
  else
    let url := if pyContains url "#" && !(pyContains url "?") then (pySplit url '#').headD "" else url
    if (urlparse url).netloc = "" then some (urljoin baseUrl url) else some url

/-- Python `re.sub(r'/\x7b2,\x7d', '/', ...)`: collapse runs of `/` in a path. -/
def collapseSlashes : List Char → List Char
  | [] => []
  | '/' :: '/' :: rest => collapseSlashes ('/' :: rest)
  | c :: rest => c :: collapseSlashes rest

/-- The tracking-parameter deny list of `clean_url` (utils.py). -/
def exclude_params : List String :=
  ["utm_source", "utm_medium", "utm_campaign", "utm_term", "utm_content",
   "fbclid", "gclid", "ref", "source", "mc_cid", "mc_eid", "tracking",
   "__hstc", "__hssc", "__hsfp", "_ga", "_gl", "_hsenc", "_hsmi"]

/-- Embedding of `clean_url` (utils.py): collapse duplicate slashes, drop a trailing
slash except on the root path, drop the deny-listed tracking query
parameters (keeping every other parameter) and the fragment. -/
def clean_url (url : String) : String :=
  let parsed := urlparse url
  let path := strOfList (collapseSlashes parsed.path.data)
  let path := if path ≠ "/" ∧ pyEndsWith path "/" then rstripChar '/' path else path
  let params := parse_qs parsed.query
  let filtered := params.filter fun kv => ¬ exclude_params.contains (pyLower kv.1)
  urlunparse { scheme := parsed.scheme, netloc := parsed.netloc, path := path,
               params := parsed.params, query := urlencode filtered, fragment := "" }

/-- Python `os.path.basename` (posix): the part after the last `/`. -/
def basename (path : String) : String := ((pySplit path '/').getLast?).getD ""

/-- The extension part of `os.path.splitext` (with the dot, or `""`):
split at the last dot provided some earlier character is not a dot. -/
def splitextExt (name : String) : String :=
  match breakAtChar '.' name.data.reverse with
  | (revExtChars, some revStem) =>
    if revStem.reverse.any (fun c => c ≠ '.') then strOfList ('.' :: revExtChars.reverse) else ""
  | (_, none) => ""

/-- Embedding of `get_file_extension` (utils.py): lowercase extension of the URL path, without dot. -/
def get_file_extension (url : String) : String :=
  let path := (urlparse url).path
  let ext := splitextExt (basename path)
  if ext ≠ "" then pyLower (strOfList ext.data.tail) else ""

/-- Asset file extensions recognized by `is_asset_url` (utils.py). -/
def asset_extensions : List String :=
  ["jpg", "jpeg", "png", "gif", "svg", "webp", "ico", "bmp",
   "css", "scss", "less", "js", "mjs",
   "woff", "woff2", "ttf", "eot", "otf",
   "pdf", "zip", "xml", "json"]

/-- Asset path markers recognized by `is_asset_url` (utils.py). -/
def asset_patterns : List String :=
  ["/assets/", "/static/", "/images/", "/img/", "/css/", "/js/", "/fonts/"]

/-- Embedding of `is_asset_url` (utils.py). -/
def is_asset_url (url : String) : Bool :=
  if asset_extensions.contains (get_file_extension url) then true
  else asset_patterns.any fun p => pyContains (pyLower url) p

/-! ## `document_scraper/crawler.py`: URL categorization -/

namespace Crawler

/-- Constant `DOC_PATTERNS` (crawler.py). -/
def DOC_PATTERNS : List String :=
  ["/docs/", "/doc/", "/documentation/", "/guide/", "/guides/",
   "/reference/", "/api/", "/manual/", "/tutorial/", "/get-started/",
   "/learn/", "/howto/", "/usage/", "/examples/", "/quickstart/",
   "/sdk/", "/cli/", "/faq/", "/help/"]

/-- Constant `AUX_PATTERNS` (crawler.py). -/
def AUX_PATTERNS : List String :=
  ["/account/", "/profile/", "/settings/", "/user/",
   "/pricing/", "/billing/", "/subscription/", "/payment/", "/plans/",
   "/about/", "/company/", "/team/", "/contact/", "/support/",
   "/legal/", "/terms/", "/privacy/", "/blog/", "/news/"]

/-- Documentation-related subdomain names checked by `Crawler.categorize_url`. -/
def doc_subdomains : List String :=
  ["docs", "documentation", "developer", "api", "guide", "help", "support", "manual", "learn"]

/-- The document-like file extensions `Crawler.categorize_url` tests with
`re.search(r'\.(html|htm|md|pdf|txt)$', path)`. -/
def doc_file_suffixes : List String := [".html", ".htm", ".md", ".pdf", ".txt"]

/-- Field `self.domain` set in `Crawler.__init__`. -/
def domain (baseUrl : String) : String := get_domain baseUrl

/-- Field `self.base_path` set in `Crawler.__init__`:
`urlparse(base_url).path.strip('/')`. -/
def base_path (baseUrl : String) : String := stripChar '/' (urlparse baseUrl).path

/-- Field `self.base_path_segments` set in `Crawler.__init__`:
`self.base_path.split('/') if self.base_path else []`. -/
def base_path_segments (baseUrl : String) : List String :=
  if base_path baseUrl ≠ "" then pySplit (base_path baseUrl) '/' else []

/-- Embedding of `Crawler.categorize_url` (crawler.py). `baseUrl` is the crawler's
construction argument, from which `self.domain`, `self.base_path` and
`self.base_path_segments` are derived as in `Crawler.__init__`. -/
def categorize_url (baseUrl url : String) : String :=
  if url = "" then "invalid"
  else if is_asset_url url then "asset"
  else
    let parsedUrl := urlparse url
    let domNetloc := (urlparse (domain baseUrl)).netloc
    if parsedUrl.netloc ≠ "" ∧ parsedUrl.netloc ≠ domNetloc then
      let baseDomainParts := pySplit domNetloc '.'
      let urlDomainParts := pySplit parsedUrl.netloc '.'
      if 2 ≤ baseDomainParts.length ∧ 2 ≤ urlDomainParts.length then
        let baseMainDomain := joinWith "." (baseDomainParts.drop (baseDomainParts.length - 2))
        let urlMainDomain := joinWith "." (urlDomainParts.drop (urlDomainParts.length - 2))
        if baseMainDomain = urlMainDomain ∧
           ((urlDomainParts.take (urlDomainParts.length - 2)).any fun sub =>
             doc_subdomains.contains sub) then
          "doc"
        else "external"
      else "external"
    else
      let path := pyLower parsedUrl.path
      if DOC_PATTERNS.any (fun p => pyContains path p) then "doc"
      else
        if base_path baseUrl ≠ "" ∧ pyStartsWith path ("/" ++ base_path baseUrl ++ "/") then "doc"
        else
          let urlPathSegments := pySplit (stripChar '/' parsedUrl.path) '/'
          if base_path_segments baseUrl ≠ [] ∧
             (base_path_segments baseUrl).length ≤ urlPathSegments.length ∧
             urlPathSegments.take (base_path_segments baseUrl).length = base_path_segments baseUrl
          then "doc"
          else if AUX_PATTERNS.any (fun p => pyContains path p) then "aux"
          else if doc_file_suffixes.any (fun e => pyEndsWith path e) then "doc"
          else "aux"

/-- Embedding of `Crawler._matches_url_filters` (crawler.py), identical to
`DocumentationScraper._matches_url_filters` (scraper.py). Compiled
regular expressions are modelled as match predicates on the URL
(the truth value of `pattern.search(url)`). -/
def matches_url_filters (includeRe excludeRe : List (String → Bool)) (url : String) : Bool :=
  if !includeRe.isEmpty && !(includeRe.any fun p => p url) then false
  else if excludeRe.any (fun p => p url) then false
  else true

end Crawler

/-! ## `document_scraper/scraper.py`: URL normalization -/

namespace Scraper

/-- The allow-listed content parameters of `DocumentationScraper._normalize_url`. -/
def content_params : List String := ["lang", "version", "v", "platform"]

/-- Embedding of `DocumentationScraper._normalize_url` (scraper.py): resolve against the
base, keep only the allow-listed query parameters, drop the fragment.
(The `except` fallback returning the input is unreachable here: the
embedding is total.) -/
def normalize_url (url baseUrl : String) : String :=
  let fullUrl := urljoin baseUrl url
  let parsed := urlparse fullUrl
  let queryParams := parse_qs parsed.query
  let filtered := queryParams.filter fun kv => content_params.contains (pyLower kv.1)
  let parsed :=
    if filtered ≠ [] then { parsed with query := urlencode filtered }
    else { parsed with query := "" }
  let parsed := { parsed with fragment := "" }
  urlunparse parsed

end Scraper

/-! ## `Crawler._download_with_retries` and `Crawler.download_url` error paths

The HTTP collaborator is modelled as a responder mapping the attempt
index to the outcome of one `session.get` call: either a response with
a status code and body, or a raised connection-level
`RequestException`. -/

/-- Outcome of one `session.get` call. -/
inductive HttpAttempt where
  | response (status : Nat) (body : String)
  | connFailure (msg : String)

/-- The exception escaping `_download_with_retries`:
an `HTTPError` from `raise_for_status`, or another `RequestException`. -/
inductive ReqError where
  | httpError (status : Nat)
  | requestError (msg : String)
deriving DecidableEq, Repr

namespace Crawler

/-- Python `requests.Response.raise_for_status` raises for 4xx and 5xx codes. -/
def raiseForStatusFails (status : Nat) : Bool := 400 ≤ status ∧ status < 600

/-- The retry loop of `Crawler._download_with_retries` (crawler.py).
`remaining` is the number of loop iterations left (`retries - attempt`);
the result pairs the number of `session.get` calls made with the body or
raised error. A 429 response sleeps and `continue`s (never raises
directly); any other error status raises via `raise_for_status` and is
re-raised only on the last attempt; on exhausting the loop the final
`RequestException(f"Failed to download {url} after ...")` is raised. -/
def downloadWithRetriesAux (responder : Nat → HttpAttempt) :
    Nat → Nat → Nat × Except ReqError String
  | attempt, 0 => (attempt, Except.error (ReqError.requestError "retries exhausted"))
  | attempt, remaining + 1 =>
    match responder attempt with
    | .connFailure msg =>
      if remaining = 0 then (attempt + 1, Except.error (ReqError.requestError msg))
      else downloadWithRetriesAux responder (attempt + 1) remaining
    | .response status body =>
      if status = 429 then downloadWithRetriesAux responder (attempt + 1) remaining
      else if raiseForStatusFails status then
        if remaining = 0 then (attempt + 1, Except.error (ReqError.httpError status))
        else downloadWithRetriesAux responder (attempt + 1) remaining
      else (attempt + 1, Except.ok body)

/-- Entry point of `Crawler._download_with_retries` for a crawler configured with
`retries`: starts at attempt 0 with `retries` loop iterations. -/
def download_with_retries (responder : Nat → HttpAttempt) (retries : Nat) :
    Nat × Except ReqError String :=
  downloadWithRetriesAux responder 0 retries

/-- Truthiness of a `requests.Response`: `Response.__bool__` returns
`self.ok`, which is true exactly when `status_code < 400`. -/
def responseOk (status : Nat) : Bool := status < 400

/-- The `failed_urls` entry `Crawler.download_url` (crawler.py) records
for this URL: `none` on success; for an `HTTPError` the handler tests
`hasattr(e, 'response') and e.response and e.response.status_code == 404`
— the response attached by `raise_for_status` always has an error
status, so `e.response` is falsy and the `"404 Not Found"` branch is
unreachable, leaving `f"HTTP Error: {e}"` (abbreviated here to the
status); other failures record the exception text. -/
def download_url_record (responder : Nat → HttpAttempt) (retries : Nat) : Option String :=
  match (download_with_retries responder retries).2 with
  | .ok _ => none
  | .error (.httpError status) =>
    if responseOk status ∧ status = 404 then some "404 Not Found"
    else some ("HTTP Error: status " ++ toString status)
  | .error (.requestError msg) => some msg

end Crawler

/-! ## `Crawler.crawl` (crawler.py)

The crawl loop, with `download_url` abstracted as a collaborator
returning either a page (HTML plus the categorized link dict produced by
`extract_links`), a recorded failure (the `except` branches of
`download_url`, which fill `failed_urls` and return `(None, None)`), or
a silent skip (content-filter rejection, stop-event return, or HTML
parse failure — `(None, None)` / `(html, None)` without a failure
record). `stop_event` is modelled as absent (`None`), the progress
bar/callbacks have no state effect, and the interactive auxiliary phase
is dead code in the source (`process_aux = False`), so the loop below is
phase 1 followed by returning the tallies.

Concurrent batch processing (`as_completed`) folds results into the
instance state in completion order; the model folds them in batch
order, one admissible serialization. `fetchLog` is a ghost field
recording each `(url, depth)` dispatched to `download_url`. -/

/-- The categorized link dict returned by `Crawler.extract_links`. -/
structure CategorizedLinks where
  doc : List String := []
  aux : List String := []
  external : List String := []
  asset : List String := []

/-- Result of one `Crawler.download_url` call. -/
inductive CrawlerFetch where
  | page (html : String) (links : CategorizedLinks)
  | failed (reason : String)
  | skipped

/-- Configuration fields of `Crawler` used by `crawl`. -/
structure CrawlerConfig where
  baseUrl : String
  maxDepth : Nat
  maxPages : Option Nat
  concurrentRequests : Nat

/-- The mutable state of a `Crawler` instance during `crawl`,
plus the local `doc_queue` and the ghost `fetchLog`. -/
structure CrawlerState where
  visited : List String := []
  queued : List String := []
  pagesDownloaded : Nat := 0
  failedUrls : List (String × String) := []
  docLinks : List String := []
  auxLinks : List String := []
  externalLinks : List String := []
  assetLinks : List String := []
  docQueue : List (String × Nat) := []
  fetchLog : List (String × Nat) := []

/-- Python `set.add`. -/
def addSet (s : List String) (x : String) : List String :=
  if x ∈ s then s else s ++ [x]

/-- Python `set.update`. -/
def updateSet (s : List String) (xs : List String) : List String :=
  xs.foldl addSet s

/-- Python dict assignment `failed_urls[url] = reason`. -/
def setFailed (fs : List (String × String)) (url reason : String) : List (String × String) :=
  (fs.filter fun kv => kv.1 ≠ url) ++ [(url, reason)]

namespace Crawler

/-- The link-enqueueing loop at the end of `Crawler.crawl`'s result
processing: each discovered documentation link is appended to
`doc_queue` at `depth + 1` unless it is in `visited`, in `queued`, or
already pending in `doc_queue`. Returns the updated `(doc_queue, queued)`. -/
def enqueueDocLinks (visited : List String) (depth : Nat) (links : List String)
    (qqd : List (String × Nat) × List String) : List (String × Nat) × List String :=
  links.foldl
    (fun qqd l =>
      let (q, qd) := qqd
      if l ∉ visited ∧ l ∉ qd ∧ ¬ (q.any fun item => item.1 = l) then
        (q ++ [(l, depth + 1)], addSet qd l)
      else (q, qd))
    qqd

/-- Processing of one completed `download_url` future inside
`Crawler.crawl`'s `as_completed` loop. -/
def processResult (fetcher : String → CrawlerFetch) (cfg : CrawlerConfig)
    (st : CrawlerState) (e : String × Nat) : CrawlerState :=
  let (url, depth) := e
  let st := { st with fetchLog := st.fetchLog ++ [(url, depth)],
                      visited := addSet st.visited url }
  match fetcher url with
  | .page html links =>
    if html ≠ "" then
      let st := { st with
        pagesDownloaded := st.pagesDownloaded + 1,
        docLinks := updateSet st.docLinks links.doc,
        auxLinks := updateSet st.auxLinks links.aux,
        externalLinks := updateSet st.externalLinks links.external,
        assetLinks := updateSet st.assetLinks links.asset }
      if depth < cfg.maxDepth then
        let (q, qd) := enqueueDocLinks st.visited depth links.doc (st.docQueue, st.queued)
        { st with docQueue := q, queued := qd }
      else st
    else st
  | .failed reason => { st with failedUrls := setFailed st.failedUrls url reason }
  | .skipped => st

/-- Condition `self.max_pages is None or self.pages_downloaded < self.max_pages`, negated. -/
def capReached (cfg : CrawlerConfig) (st : CrawlerState) : Bool :=
  match cfg.maxPages with
  | none => false
  | some n => ¬ st.pagesDownloaded < n

/-- The phase-1 `while doc_queue and ...` loop of `Crawler.crawl`,
with `fuel` bounding the number of iterations (a state after `fuel`
batches; every reachable loop state is `crawlLoop` for some fuel). -/
def crawlLoop (fetcher : String → CrawlerFetch) (cfg : CrawlerConfig) :
    Nat → CrawlerState → CrawlerState
  | 0, st => st
  | fuel + 1, st =>
    if st.docQueue.isEmpty then st
    else if capReached cfg st then st
    else
      let batch := st.docQueue.take cfg.concurrentRequests
      let rest := st.docQueue.drop cfg.concurrentRequests
      if batch.isEmpty then st
      else crawlLoop fetcher cfg fuel
        (batch.foldl (processResult fetcher cfg) { st with docQueue := rest })

/-- Embedding of `Crawler.crawl` (crawler.py): reset all instance state, seed the
queue with `(base_url, 0)`, run the batch loop. The dead interactive
auxiliary phase changes no state and is omitted. -/
def crawl (fetcher : String → CrawlerFetch) (cfg : CrawlerConfig) (fuel : Nat)
    (st : CrawlerState) : CrawlerState :=
  let st := { st with
    pagesDownloaded := 0, visited := [], queued := [cfg.baseUrl],
    failedUrls := [], docLinks := [], auxLinks := [],
    externalLinks := [], assetLinks := [],
    docQueue := [(cfg.baseUrl, 0)], fetchLog := [] }
  crawlLoop fetcher cfg fuel st

end Crawler

/-! ## `DocumentationScraper.crawl` (scraper.py)

The same batch loop as `Crawler.crawl`, with these source differences:
links are a flat list (doc/aux categorization only feeds statistics and
the interactive prompt, disabled here as `interactive=False`), the
enqueue guard additionally calls `is_valid_doc_url`, pages are counted
only when `save_content` succeeds, the seed URLs are appended without
deduplication, and the reset at the top of `crawl` clears `visited`,
`failed_urls` and the two counters but **not** `self.queued`.
`download_page`, `is_valid_doc_url` and `save_content` are abstracted
as collaborators; `download_page` yields `(title, html, links)` with
empty title/html on error. The 404 branch of `download_page`, which
returns `(None, None, None)` (scraper.py 1051-1054) and leads to an
uncaught `TypeError` over `links` in the loop body (scraper.py 1412),
is outside this base model; it is embedded separately by
`processResult404`/`crawl404` below, which extend the base model with
that path and with dispatch-time logging. `stop_event` is modelled as
absent. -/

/-- Collaborators of `DocumentationScraper.crawl`. -/
structure ScraperEnv where
  downloadPage : String → String × String × List String
  is_valid_doc_url : String → Bool
  saveContent : String → String → String → Bool

/-- Configuration fields of `DocumentationScraper` used by `crawl`. -/
structure ScraperConfig where
  baseUrl : String
  maxDepth : Nat
  maxPages : Option Nat
  concurrentRequests : Nat

/-- The mutable state of a `DocumentationScraper` instance during
`crawl`, plus the local `queue` and the ghost `fetchLog`. -/
structure ScraperState where
  visited : List String := []
  queued : List String := []
  pagesDownloaded : Nat := 0
  assetsDownloaded : Nat := 0
  failedUrls : List (String × String) := []
  queue : List (String × Nat) := []
  fetchLog : List (String × Nat) := []

namespace Scraper

/-- The `for link in links` enqueue loop of `DocumentationScraper.crawl`:
a link is appended at `depth + 1` unless it is in `visited` or `queued`,
fails `is_valid_doc_url`, or is already pending in `queue`. -/
def enqueueLinks (env : ScraperEnv) (depth : Nat) (links : List String)
    (st : ScraperState) : ScraperState :=
  links.foldl
    (fun st l =>
      if l ∉ st.visited ∧ l ∉ st.queued ∧ env.is_valid_doc_url l ∧
         ¬ (st.queue.any fun item => item.1 = l) then
        { st with queue := st.queue ++ [(l, depth + 1)], queued := addSet st.queued l }
      else st)
    st

/-- Processing of one completed `download_page` future inside
`DocumentationScraper.crawl`'s `as_completed` loop. -/
def processResult (env : ScraperEnv) (cfg : ScraperConfig)
    (st : ScraperState) (e : String × Nat) : ScraperState :=
  let (url, depth) := e
  let st := { st with fetchLog := st.fetchLog ++ [(url, depth)],
                      visited := addSet st.visited url }
  let (title, html, links) := env.downloadPage url
  let st :=
    if title ≠ "" ∧ html ≠ "" then
      if env.saveContent url title html then
        { st with pagesDownloaded := st.pagesDownloaded + 1 }
      else st
    else st
  if depth < cfg.maxDepth then enqueueLinks env depth links st else st

/-- Condition `self.max_pages is None or self.pages_downloaded < self.max_pages`, negated. -/
def capReached (cfg : ScraperConfig) (st : ScraperState) : Bool :=
  match cfg.maxPages with
  | none => false
  | some n => ¬ st.pagesDownloaded < n

/-- The `while queue and ...` loop of `DocumentationScraper.crawl`. -/
def crawlLoop (env : ScraperEnv) (cfg : ScraperConfig) :
    Nat → ScraperState → ScraperState
  | 0, st => st
  | fuel + 1, st =>
    if st.queue.isEmpty then st
    else if capReached cfg st then st
    else
      let batch := st.queue.take cfg.concurrentRequests
      let rest := st.queue.drop cfg.concurrentRequests
      if batch.isEmpty then st
      else crawlLoop env cfg fuel
        (batch.foldl (processResult env cfg) { st with queue := rest })

/-- The seeding and reset prologue of `DocumentationScraper.crawl`:
`initial_urls = start_urls if start_urls else [self.base_url]` (an empty
list is falsy), each URL passing `is_valid_doc_url` is appended to the
queue **without deduplication**, `self.queued` is extended (never
cleared), and `pages_downloaded`, `assets_downloaded`, `visited` and
`failed_urls` are reset. -/
def initState (env : ScraperEnv) (cfg : ScraperConfig)
    (startUrls : Option (List String)) (pre : ScraperState) : ScraperState :=
  let initialUrls :=
    match startUrls with
    | some l => if l.isEmpty then [cfg.baseUrl] else l
    | none => [cfg.baseUrl]
  let validInitialUrls := initialUrls.filter env.is_valid_doc_url
  { pre with
    queue := validInitialUrls.map fun u => (u, 0),
    queued := updateSet pre.queued validInitialUrls,
    pagesDownloaded := 0,
    assetsDownloaded := 0,
    visited := [],
    failedUrls := [],
    fetchLog := [] }

/-- Embedding of `DocumentationScraper.crawl` (scraper.py), `interactive=False`. -/
def crawl (env : ScraperEnv) (cfg : ScraperConfig) (fuel : Nat)
    (startUrls : Option (List String)) (pre : ScraperState) : ScraperState :=
  crawlLoop env cfg fuel (initState env cfg startUrls pre)

/-! ### Refinement: the 404 return of `download_page`

`download_page` answers an HTTPError with status 404 by returning
`(None, None, None)` (scraper.py 1051-1054). Back in `crawl`'s
`as_completed` loop, `title, html_content, links = future.result()`
succeeds, `title` is falsy so the save is skipped, and then — exactly
when `depth < self.max_depth` — `for link in links` iterates `None` and
raises a `TypeError` (scraper.py 1412). No handler encloses the `while`
loop, so the exception escapes `crawl()`; the instance keeps the state
reached so far: `self.visited.add(url)` already ran for the crashing
URL (scraper.py 1385), but not for the other batch members, whose
`download_page` calls were all submitted to the executor up front
(scraper.py 1355-1358) and still run during the executor shutdown.

The refined model below adds this path to the base model: `is404 url`
marks URLs whose download returns the 404 triple; `env.downloadPage` is
consulted only for the others. The ghost `fetchLog` is extended at
dispatch time (the `executor.submit` comprehension), once per batch,
so that dispatched-but-unprocessed members are logged; the `Bool`
paired with the state is `true` when the `TypeError` aborted the run. -/

/-- One completed future under the refined model: `visited.add(url)`
always runs; a 404 result skips the save and crashes (flag `true`) iff
`depth < max_depth` makes the loop body reach `for link in links` with
`links = None`; other results behave as in `processResult`, minus the
per-entry `fetchLog` append, which `crawlLoop404` does at dispatch. -/
def processResult404 (env : ScraperEnv) (is404 : String → Bool)
    (cfg : ScraperConfig) (st : ScraperState) (e : String × Nat) :
    ScraperState × Bool :=
  let (url, depth) := e
  let st := { st with visited := addSet st.visited url }
  if is404 url then
    (st, decide (depth < cfg.maxDepth))
  else
    let (title, html, links) := env.downloadPage url
    let st :=
      if title ≠ "" ∧ html ≠ "" then
        if env.saveContent url title html then
          { st with pagesDownloaded := st.pagesDownloaded + 1 }
        else st
      else st
    (if depth < cfg.maxDepth then enqueueLinks env depth links st else st, false)

/-- Folding one batch through `processResult404`, stopping at the first
crash: the `TypeError` aborts the `as_completed` loop, so members after
the crashing one are never processed. -/
def processBatch404 (env : ScraperEnv) (is404 : String → Bool)
    (cfg : ScraperConfig) : List (String × Nat) → ScraperState → ScraperState × Bool
  | [], st => (st, false)
  | e :: rest, st =>
    let p := processResult404 env is404 cfg st e
    if p.2 then p else processBatch404 env is404 cfg rest p.1

/-- The `while queue and ...` loop under the refined model: the whole
batch is logged at dispatch (`executor.submit` for every member), then
folded; a crash ends the run immediately with flag `true`. -/
def crawlLoop404 (env : ScraperEnv) (is404 : String → Bool)
    (cfg : ScraperConfig) : Nat → ScraperState → ScraperState × Bool
  | 0, st => (st, false)
  | fuel + 1, st =>
    if st.queue.isEmpty then (st, false)
    else if capReached cfg st then (st, false)
    else
      let batch := st.queue.take cfg.concurrentRequests
      let rest := st.queue.drop cfg.concurrentRequests
      if batch.isEmpty then (st, false)
      else
        let p := processBatch404 env is404 cfg batch
          { st with queue := rest, fetchLog := st.fetchLog ++ batch }
        if p.2 then p
        else crawlLoop404 env is404 cfg fuel p.1

/-- Embedding of `DocumentationScraper.crawl` under the refined model:
same prologue as `crawl`, refined loop; the flag is `true` when the run
was aborted by the 404-induced `TypeError`. -/
def crawl404 (env : ScraperEnv) (is404 : String → Bool) (cfg : ScraperConfig)
    (fuel : Nat) (startUrls : Option (List String)) (pre : ScraperState) :
    ScraperState × Bool :=
  crawlLoop404 env is404 cfg fuel (initState env cfg startUrls pre)

end Scraper

/-! ## Helper lemmas for the retry model -/

/-- Helper: a responder that always answers 404 is retried on every loop
iteration, and the last iteration re-raises the `HTTPError`. -/
theorem downloadWithRetriesAux_const404 (rem attempt : Nat) :
    Crawler.downloadWithRetriesAux (fun _ => HttpAttempt.response 404 "") attempt (rem + 1) =
      (attempt + rem + 1, Except.error (ReqError.httpError 404)) := by
  induction rem generalizing attempt with
  | zero => simp [Crawler.downloadWithRetriesAux, Crawler.raiseForStatusFails]
  | succ n ih =>
    rw [Crawler.downloadWithRetriesAux]
    simp only [Crawler.raiseForStatusFails]
    norm_num
    rw [ih, Prod.mk.injEq]
    exact ⟨by omega, rfl⟩

/-- Helper: a responder that always raises a connection-level
`RequestException` is retried on every loop iteration, and the last
iteration re-raises it. -/
theorem downloadWithRetriesAux_constConn (msg : String) (rem attempt : Nat) :
    Crawler.downloadWithRetriesAux (fun _ => HttpAttempt.connFailure msg) attempt (rem + 1) =
      (attempt + rem + 1, Except.error (ReqError.requestError msg)) := by
  induction rem generalizing attempt with
  | zero => simp [Crawler.downloadWithRetriesAux]
  | succ n ih =>
    rw [Crawler.downloadWithRetriesAux]
    norm_num
    rw [ih, Prod.mk.injEq]
    exact ⟨by omega, rfl⟩

/-! ## Claim C3: handling of HTTP 404 -/

/-- C3 (counterexample): the claim states that a fetch returning 404
makes exactly 1 request attempt (no retry) and is recorded as
"not found". In `Crawler._download_with_retries` the `HTTPError` raised
by `raise_for_status` for a 404 response is caught by the generic
`RequestException` handler and retried like any other error: with
`retries = 3`, a fetcher that always returns 404 is attempted 3 times.
The URL is then recorded as a generic `"HTTP Error: ..."` entry, not as
`"404 Not Found"`: that branch tests the truthiness of `e.response`,
which is false for an error-status `requests.Response`. -/
theorem c3_counterexample_404_is_retried :
    (Crawler.download_with_retries (fun _ => HttpAttempt.response 404 "") 3).1 = 3 ∧
    Crawler.download_url_record (fun _ => HttpAttempt.response 404 "") 3 =
      some "HTTP Error: status 404" := by
  constructor <;> rfl

/-- C3 (amended): an HTTP 404 response is **not** terminal for the retry
loop: `_download_with_retries` retries it like every other HTTP error
status, making exactly `retries` request attempts when every attempt
returns 404, after which `download_url` records the URL in the
failed-URL map as a generic `"HTTP Error: ..."` entry (the
`"404 Not Found"` special case is unreachable because a 404
`requests.Response` is falsy). Connection-level failures (timeouts,
connection errors) are likewise retried up to `retries` attempts and
then recorded with the exception text. -/
theorem c3_amended_404_retried_like_transient (retries : Nat) (h : 1 ≤ retries) :
    (Crawler.download_with_retries (fun _ => HttpAttempt.response 404 "") retries).1 = retries ∧
    Crawler.download_url_record (fun _ => HttpAttempt.response 404 "") retries =
      some "HTTP Error: status 404" ∧
    ∀ msg : String,
      (Crawler.download_with_retries (fun _ => HttpAttempt.connFailure msg) retries).1 = retries ∧
      Crawler.download_url_record (fun _ => HttpAttempt.connFailure msg) retries = some msg := by
  obtain ⟨rem, rfl⟩ : ∃ rem, retries = rem + 1 := ⟨retries - 1, by omega⟩
  refine ⟨?_, ?_, fun msg => ⟨?_, ?_⟩⟩
  · rw [Crawler.download_with_retries, downloadWithRetriesAux_const404]
    omega
  · rw [Crawler.download_url_record, Crawler.download_with_retries,
        downloadWithRetriesAux_const404]
    rfl
  · rw [Crawler.download_with_retries, downloadWithRetriesAux_constConn]
    omega
  · rw [Crawler.download_url_record, Crawler.download_with_retries,
        downloadWithRetriesAux_constConn]

/-- C3 witness: the amended theorem applied at `retries = 3`. -/
theorem c3_amended_404_retried_like_transient_witness :
    1 ≤ 3 ∧
    (Crawler.download_with_retries (fun _ => HttpAttempt.response 404 "") 3).1 = 3 :=
  ⟨by decide, (c3_amended_404_retried_like_transient 3 (by decide)).1⟩

/-! ## Claim C5: query-parameter stripping in URL normalization -/

/-- C5 (counterexample): the claim states normalization retains **only**
the allow-listed parameters (`lang`, `version`, `v`, `platform`) and
strips every other parameter. `clean_url` (utils.py), the normalizer the
crawler path applies to every extracted link, strips only a fixed
deny-list of tracking parameters: the non-allow-listed parameter
`foo=bar` survives it unchanged. -/
theorem c5_counterexample_clean_url_keeps_unlisted_param :
    clean_url "https://x.com/p?foo=bar&lang=en" = "https://x.com/p?foo=bar&lang=en" ∧
    pyContains (clean_url "https://x.com/p?foo=bar&lang=en") "foo=bar" = true := by
  constructor <;> rfl

/-- C5 (amended): the scraper-side normalizer
`DocumentationScraper._normalize_url` retains only the allow-listed
parameters, while the crawler-side `clean_url` strips only the
deny-listed tracking parameters and retains every other parameter. On
the spec's example both produce `https://x.com/p?lang=en`; on a
non-allow-listed, non-tracking parameter they differ. -/
theorem c5_amended_two_normalizers :
    clean_url "https://x.com/p?utm_source=a&lang=en" = "https://x.com/p?lang=en" ∧
    Scraper.normalize_url "https://x.com/p?utm_source=a&lang=en" "https://x.com/" =
      "https://x.com/p?lang=en" ∧
    clean_url "https://x.com/p?foo=bar&lang=en" = "https://x.com/p?foo=bar&lang=en" ∧
    Scraper.normalize_url "https://x.com/p?foo=bar&lang=en" "https://x.com/" =
      "https://x.com/p?lang=en" := by
  refine ⟨?_, ?_, ?_, ?_⟩ <;> rfl

/-! ## Claim C6: dropped URLs and fragment stripping in `normalize_url` -/

/-- C6 (code bug): `normalize_url` (utils.py) drops `#`-, `javascript:`-,
`mailto:`- and `tel:`-prefixed inputs as claimed, but its fragment
removal is guarded by `"#" in url and "?" not in url`, so a URL carrying
both a query string and a fragment keeps its fragment — contradicting
the code's own comment ("Remove fragments from URLs but keep query
parameters") and the spec. This theorem evaluates the failing inputs:
the fragment survives exactly when a query string is present. -/
theorem c6_normalize_url_fragment_behavior :
    normalize_url "https://x.com/page?x=1#frag" "https://x.com" =
      some "https://x.com/page?x=1#frag" ∧
    normalize_url "page?x=1#frag" "https://x.com/" =
      some "https://x.com/page?x=1#frag" ∧
    normalize_url "https://x.com/page#frag" "https://x.com" = some "https://x.com/page" ∧
    normalize_url "#top" "https://x.com" = none ∧
    normalize_url "javascript:void(0)" "https://x.com" = none ∧
    normalize_url "mailto:dev@example.com" "https://x.com" = none ∧
    normalize_url "tel:+1234567" "https://x.com" = none := by
  refine ⟨?_, ?_, ?_, ?_, ?_, ?_, ?_⟩ <;> rfl

/-! ## Claim C7: default classification of unmatched same-site URLs -/

/-- C7 (counterexample): the claim states that every same-site non-asset
URL matching neither a documentation path marker, an auxiliary path
marker, nor the crawl root's path prefix is classified `aux`. Before
the `aux` default, `Crawler.categorize_url` also tests
`re.search(r'\.(html|htm|md|pdf|txt)$', path)` and returns `doc` on a
match: `https://example.com/changelog.html` satisfies all the claim's
premises (same netloc, not an asset, no doc/aux marker, empty base
path) yet is classified `doc`, not `aux`. -/
theorem c7_counterexample_extension_overrides_aux_default :
    Crawler.categorize_url "https://example.com" "https://example.com/changelog.html" = "doc" ∧
    is_asset_url "https://example.com/changelog.html" = false ∧
    (urlparse "https://example.com/changelog.html").netloc =
      (urlparse (Crawler.domain "https://example.com")).netloc ∧
    (Crawler.DOC_PATTERNS.any fun p =>
      pyContains (pyLower (urlparse "https://example.com/changelog.html").path) p) = false ∧
    (Crawler.AUX_PATTERNS.any fun p =>
      pyContains (pyLower (urlparse "https://example.com/changelog.html").path) p) = false ∧
    Crawler.base_path "https://example.com" = "" := by
  refine ⟨?_, ?_, ?_, ?_, ?_, ?_⟩ <;> rfl

/-- C7 (amended): a same-site, non-asset URL matching neither a
documentation path marker, an auxiliary path marker, nor the crawl
root's path prefix is classified `aux` **unless** its (lowercased) path
ends in one of `.html`, `.htm`, `.md`, `.pdf`, `.txt`, in which case
`Crawler.categorize_url` classifies it `doc`. -/
theorem c7_amended_default_aux (baseUrl url : String)
    (hne : ¬ url = "")
    (hasset : is_asset_url url = false)
    (hsame : ¬ ((urlparse url).netloc ≠ "" ∧
      (urlparse url).netloc ≠ (urlparse (Crawler.domain baseUrl)).netloc))
    (hdoc : (Crawler.DOC_PATTERNS.any fun p =>
      pyContains (pyLower (urlparse url).path) p) = false)
    (hbase1 : ¬ (Crawler.base_path baseUrl ≠ "" ∧
      pyStartsWith (pyLower (urlparse url).path) ("/" ++ Crawler.base_path baseUrl ++ "/") = true))
    (hbase2 : ¬ (Crawler.base_path_segments baseUrl ≠ [] ∧
      (Crawler.base_path_segments baseUrl).length ≤
        (pySplit (stripChar '/' (urlparse url).path) '/').length ∧
      (pySplit (stripChar '/' (urlparse url).path) '/').take
        (Crawler.base_path_segments baseUrl).length = Crawler.base_path_segments baseUrl))
    (haux : (Crawler.AUX_PATTERNS.any fun p =>
      pyContains (pyLower (urlparse url).path) p) = false) :
    Crawler.categorize_url baseUrl url =
      (if Crawler.doc_file_suffixes.any (fun e => pyEndsWith (pyLower (urlparse url).path) e)
       then "doc" else "aux") := by
  rw [Crawler.categorize_url]
  simp only [if_neg hne, hasset, Bool.false_eq_true, if_false, if_neg hsame, hdoc,
    if_neg hbase1, if_neg hbase2, haux]

/-- C7 witness: the amended theorem applied to
`https://example.com/somepage`, which has no document-like extension
and is classified `aux`. -/
theorem c7_amended_default_aux_witness :
    is_asset_url "https://example.com/somepage" = false ∧
    Crawler.categorize_url "https://example.com" "https://example.com/somepage" = "aux" :=
  ⟨by rfl, c7_amended_default_aux "https://example.com" "https://example.com/somepage"
    (by decide) (by rfl) (by decide) (by rfl) (by decide) (by decide) (by rfl)⟩

/-! ## Claim C9: URL include/exclude filtering -/

/-- C9: `_matches_url_filters` (identical in crawler.py and scraper.py)
accepts a URL only if it matches at least one include pattern whenever
include patterns are configured; rejects it whenever any exclude
pattern matches, regardless of include matches; and when no include
patterns are configured the include stage passes every URL, so the
result is exactly the negation of the exclude test. -/
theorem c9_matches_url_filters_spec :
    (∀ (inc exc : List (String → Bool)) (url : String),
      inc ≠ [] → Crawler.matches_url_filters inc exc url = true →
      (inc.any fun p => p url) = true) ∧
    (∀ (inc exc : List (String → Bool)) (url : String),
      (exc.any fun p => p url) = true →
      Crawler.matches_url_filters inc exc url = false) ∧
    (∀ (exc : List (String → Bool)) (url : String),
      Crawler.matches_url_filters [] exc url = !(exc.any fun p => p url)) := by
  refine ⟨?_, ?_, ?_⟩
  · intro inc exc url hne hres
    cases h1 : (inc.any fun p => p url) with
    | true => rfl
    | false =>
      exfalso
      have hisE : inc.isEmpty = false := by
        cases inc with
        | nil => exact absurd rfl hne
        | cons a l => rfl
      simp only [Crawler.matches_url_filters, hisE, h1] at hres
      simp at hres
  · intro inc exc url hexc
    simp only [Crawler.matches_url_filters]
    by_cases hinc : (!inc.isEmpty && !(inc.any fun p => p url)) = true
    · rw [if_pos hinc]
    · rw [if_neg hinc, if_pos hexc]
  · intro exc url
    simp only [Crawler.matches_url_filters]
    cases hexc : (exc.any fun p => p url) with
    | true => simp [hexc]
    | false => simp [hexc]

/-- C9 witness: the first conjunct of the specification applied to a
concrete include pattern and URL. -/
theorem c9_matches_url_filters_spec_witness :
    (([fun s => decide (s = "https://d.io/docs")] : List (String → Bool)) ≠ []) ∧
    (([fun s => decide (s = "https://d.io/docs")] : List (String → Bool)).any
      fun p => p "https://d.io/docs") = true :=
  ⟨by simp, c9_matches_url_filters_spec.1 [fun s => decide (s = "https://d.io/docs")] []
    "https://d.io/docs" (by simp) (by rfl)⟩

/-! ## Set-helper lemmas -/

/-- Membership in `addSet`. -/
theorem mem_addSet {s : List String} {x y : String} :
    y ∈ addSet s x ↔ y ∈ s ∨ y = x := by
  unfold addSet
  split
  · next h => exact ⟨Or.inl, fun hy => hy.elim id fun hyx => hyx ▸ h⟩
  · simp

/-- Adding preserves membership. -/
theorem mem_addSet_of_mem {s : List String} {x y : String} (h : y ∈ s) :
    y ∈ addSet s x := mem_addSet.mpr (Or.inl h)

/-- The added element is a member. -/
theorem mem_addSet_self {s : List String} {x : String} : x ∈ addSet s x :=
  mem_addSet.mpr (Or.inr rfl)

/-- Updating preserves membership. -/
theorem mem_updateSet_of_mem {xs : List String} :
    ∀ {s : List String} {y : String}, y ∈ s → y ∈ updateSet s xs := by
  induction xs with
  | nil => exact fun h => h
  | cons x xs ih => exact fun h => ih (mem_addSet_of_mem h)

/-- Elements of the update list become members. -/
theorem mem_updateSet_of_mem_arg {xs : List String} :
    ∀ {s : List String} {y : String}, y ∈ xs → y ∈ updateSet s xs := by
  induction xs with
  | nil => intro s y h; cases h
  | cons x xs ih =>
    intro s y h
    rcases List.mem_cons.mp h with rfl | h
    · exact mem_updateSet_of_mem (s := addSet s y) mem_addSet_self
    · exact ih h

/-! ## Invariants of the `Crawler.crawl` loop -/

namespace Crawler

/-- Specification of the documentation-link enqueue loop: given a
context `C` of URL names that are pairwise distinct from the pending
queue and all recorded in the `queued` set, the loop preserves
distinctness and the `queued` record, only grows `queued`, and appends
only entries at depth `depth + 1`. -/
theorem enqueueDocLinks_spec (visited : List String) (depth : Nat) :
    ∀ (links : List String) (q : List (String × Nat)) (qd : List String) (C : List String),
      (C ++ q.map Prod.fst).Nodup →
      (∀ x ∈ C ++ q.map Prod.fst, x ∈ qd) →
      (C ++ (enqueueDocLinks visited depth links (q, qd)).1.map Prod.fst).Nodup ∧
      (∀ x ∈ C ++ (enqueueDocLinks visited depth links (q, qd)).1.map Prod.fst,
        x ∈ (enqueueDocLinks visited depth links (q, qd)).2) ∧
      (∀ x ∈ qd, x ∈ (enqueueDocLinks visited depth links (q, qd)).2) ∧
      (∀ e ∈ (enqueueDocLinks visited depth links (q, qd)).1, e ∈ q ∨ e.2 = depth + 1) := by
  intro links
  induction links with
  | nil =>
    intro q qd C hnd hq
    exact ⟨hnd, hq, fun x hx => hx, fun e he => Or.inl he⟩
  | cons l links ih =>
    intro q qd C hnd hq
    by_cases hg : l ∉ visited ∧ l ∉ qd ∧ ¬ (q.any fun item => item.1 = l)
    · have hstep : enqueueDocLinks visited depth (l :: links) (q, qd) =
          enqueueDocLinks visited depth links (q ++ [(l, depth + 1)], addSet qd l) := by
        simp only [enqueueDocLinks, List.foldl_cons, if_pos hg]
      have hlC : l ∉ C ++ q.map Prod.fst := fun hl => hg.2.1 (hq l hl)
      have hnd' : (C ++ (q ++ [(l, depth + 1)]).map Prod.fst).Nodup := by
        rw [List.map_append, ← List.append_assoc]
        simp only [List.map_cons, List.map_nil]
        rw [List.nodup_append]
        refine ⟨hnd, List.nodup_singleton l, ?_⟩
        intro x hx
        simp only [List.mem_singleton]
        intro hxl
        exact hlC (hxl ▸ hx)
      have hq' : ∀ x ∈ C ++ (q ++ [(l, depth + 1)]).map Prod.fst, x ∈ addSet qd l := by
        intro x hx
        rw [List.map_append, ← List.append_assoc] at hx
        rcases List.mem_append.mp hx with hx | hx
        · exact mem_addSet_of_mem (hq x hx)
        · simp only [List.map_cons, List.map_nil, List.mem_singleton] at hx
          exact hx ▸ mem_addSet_self
      rw [hstep]
      obtain ⟨a, b, c, d⟩ := ih (q ++ [(l, depth + 1)]) (addSet qd l) C hnd' hq'
      refine ⟨a, b, fun x hx => c x (mem_addSet_of_mem hx), fun e he => ?_⟩
      rcases d e he with he' | he'
      · rcases List.mem_append.mp he' with he'' | he''
        · exact Or.inl he''
        · simp only [List.mem_singleton] at he''
          exact Or.inr (he'' ▸ rfl)
      · exact Or.inr he'
    · have hstep : enqueueDocLinks visited depth (l :: links) (q, qd) =
          enqueueDocLinks visited depth links (q, qd) := by
        simp only [enqueueDocLinks, List.foldl_cons, if_neg hg]
      rw [hstep]
      exact ih q qd C hnd hq

/-- Specification of processing one completed fetch result: the URL is
logged and visited, previously visited URLs stay visited, `queued` only
grows, at most one page is counted, and the tracked URL names (log,
then a context `ctx`, then the pending queue) stay distinct, stay
recorded in `queued`, and all queued entries stay within the depth
bound. -/
theorem processResult_spec (fetcher : String → CrawlerFetch) (cfg : CrawlerConfig)
    (st : CrawlerState) (u : String) (d : Nat) (ctx : List String)
    (hnd : (st.fetchLog.map Prod.fst ++ u :: ctx ++ st.docQueue.map Prod.fst).Nodup)
    (hq : ∀ x ∈ st.fetchLog.map Prod.fst ++ u :: ctx ++ st.docQueue.map Prod.fst, x ∈ st.queued)
    (hdq : ∀ e ∈ st.docQueue, e.2 ≤ cfg.maxDepth)
    (hd : d ≤ cfg.maxDepth)
    (hlog : ∀ e ∈ st.fetchLog, e.2 ≤ cfg.maxDepth)
    (hvis : ∀ e ∈ st.fetchLog, e.1 ∈ st.visited) :
    ((processResult fetcher cfg st (u, d)).fetchLog.map Prod.fst ++ ctx ++
      (processResult fetcher cfg st (u, d)).docQueue.map Prod.fst).Nodup ∧
    (∀ x ∈ (processResult fetcher cfg st (u, d)).fetchLog.map Prod.fst ++ ctx ++
      (processResult fetcher cfg st (u, d)).docQueue.map Prod.fst,
      x ∈ (processResult fetcher cfg st (u, d)).queued) ∧
    (∀ e ∈ (processResult fetcher cfg st (u, d)).docQueue, e.2 ≤ cfg.maxDepth) ∧
    (∀ e ∈ (processResult fetcher cfg st (u, d)).fetchLog, e.2 ≤ cfg.maxDepth) ∧
    (∀ e ∈ (processResult fetcher cfg st (u, d)).fetchLog,
      e.1 ∈ (processResult fetcher cfg st (u, d)).visited) ∧
    (processResult fetcher cfg st (u, d)).pagesDownloaded ≤ st.pagesDownloaded + 1 := by
  have hshuffle : st.fetchLog.map Prod.fst ++ u :: ctx ++ st.docQueue.map Prod.fst =
      (st.fetchLog ++ [(u, d)]).map Prod.fst ++ ctx ++ st.docQueue.map Prod.fst := by
    simp
  rw [hshuffle] at hnd hq
  have hlog' : ∀ e ∈ st.fetchLog ++ [(u, d)], e.2 ≤ cfg.maxDepth := by
    intro e he
    rcases List.mem_append.mp he with he | he
    · exact hlog e he
    · simp only [List.mem_singleton] at he
      exact he ▸ hd
  have hvis' : ∀ e ∈ st.fetchLog ++ [(u, d)], e.1 ∈ addSet st.visited u := by
    intro e he
    rcases List.mem_append.mp he with he | he
    · exact mem_addSet_of_mem (hvis e he)
    · simp only [List.mem_singleton] at he
      exact he ▸ mem_addSet_self
  cases hf : fetcher u with
  | page html links =>
    by_cases hh : html ≠ ""
    · by_cases hlt : d < cfg.maxDepth
      · have hdef : processResult fetcher cfg st (u, d) =
            { st with
              fetchLog := st.fetchLog ++ [(u, d)],
              visited := addSet st.visited u,
              pagesDownloaded := st.pagesDownloaded + 1,
              docLinks := updateSet st.docLinks links.doc,
              auxLinks := updateSet st.auxLinks links.aux,
              externalLinks := updateSet st.externalLinks links.external,
              assetLinks := updateSet st.assetLinks links.asset,
              docQueue := (enqueueDocLinks (addSet st.visited u) d links.doc
                (st.docQueue, st.queued)).1,
              queued := (enqueueDocLinks (addSet st.visited u) d links.doc
                (st.docQueue, st.queued)).2 } := by
          simp only [processResult, hf, if_pos hh, if_pos hlt]
        rw [hdef]
        obtain ⟨a, b, c, dd⟩ := enqueueDocLinks_spec (addSet st.visited u) d links.doc
          st.docQueue st.queued ((st.fetchLog ++ [(u, d)]).map Prod.fst ++ ctx) hnd hq
        refine ⟨a, b, ?_, hlog', hvis', by simp⟩
        · intro e he
          rcases dd e he with he' | he'
          · exact hdq e he'
          · omega
      · have hdef : processResult fetcher cfg st (u, d) =
            { st with
              fetchLog := st.fetchLog ++ [(u, d)],
              visited := addSet st.visited u,
              pagesDownloaded := st.pagesDownloaded + 1,
              docLinks := updateSet st.docLinks links.doc,
              auxLinks := updateSet st.auxLinks links.aux,
              externalLinks := updateSet st.externalLinks links.external,
              assetLinks := updateSet st.assetLinks links.asset } := by
          simp only [processResult, hf, if_pos hh, if_neg hlt]
        rw [hdef]
        exact ⟨hnd, hq, hdq, hlog', hvis', by simp⟩
    · have hdef : processResult fetcher cfg st (u, d) =
          { st with fetchLog := st.fetchLog ++ [(u, d)], visited := addSet st.visited u } := by
        simp only [processResult, hf, if_neg hh]
      rw [hdef]
      exact ⟨hnd, hq, hdq, hlog', hvis', by simp⟩
  | failed reason =>
    have hdef : processResult fetcher cfg st (u, d) =
        { st with fetchLog := st.fetchLog ++ [(u, d)], visited := addSet st.visited u,
                  failedUrls := setFailed st.failedUrls u reason } := by
      simp only [processResult, hf]
    rw [hdef]
    exact ⟨hnd, hq, hdq, hlog', hvis', by simp⟩
  | skipped =>
    have hdef : processResult fetcher cfg st (u, d) =
        { st with fetchLog := st.fetchLog ++ [(u, d)], visited := addSet st.visited u } := by
      simp only [processResult, hf]
    rw [hdef]
    exact ⟨hnd, hq, hdq, hlog', hvis', by simp⟩

/-- Folding a whole batch of completed fetches preserves the loop
invariants: tracked URL names stay distinct and recorded in `queued`,
and all depths stay within the bound. -/
theorem processBatch_spec (fetcher : String → CrawlerFetch) (cfg : CrawlerConfig) :
    ∀ (pending : List (String × Nat)) (st : CrawlerState),
      (st.fetchLog.map Prod.fst ++ pending.map Prod.fst ++ st.docQueue.map Prod.fst).Nodup →
      (∀ x ∈ st.fetchLog.map Prod.fst ++ pending.map Prod.fst ++ st.docQueue.map Prod.fst,
        x ∈ st.queued) →
      (∀ e ∈ st.docQueue, e.2 ≤ cfg.maxDepth) →
      (∀ e ∈ pending, e.2 ≤ cfg.maxDepth) →
      (∀ e ∈ st.fetchLog, e.2 ≤ cfg.maxDepth) →
      (∀ e ∈ st.fetchLog, e.1 ∈ st.visited) →
      ((pending.foldl (processResult fetcher cfg) st).fetchLog.map Prod.fst ++
        (pending.foldl (processResult fetcher cfg) st).docQueue.map Prod.fst).Nodup ∧
      (∀ x ∈ (pending.foldl (processResult fetcher cfg) st).fetchLog.map Prod.fst ++
        (pending.foldl (processResult fetcher cfg) st).docQueue.map Prod.fst,
        x ∈ (pending.foldl (processResult fetcher cfg) st).queued) ∧
      (∀ e ∈ (pending.foldl (processResult fetcher cfg) st).docQueue, e.2 ≤ cfg.maxDepth) ∧
      (∀ e ∈ (pending.foldl (processResult fetcher cfg) st).fetchLog, e.2 ≤ cfg.maxDepth) ∧
      (∀ e ∈ (pending.foldl (processResult fetcher cfg) st).fetchLog,
        e.1 ∈ (pending.foldl (processResult fetcher cfg) st).visited) := by
  intro pending
  induction pending with
  | nil =>
    intro st hnd hq hdq hdp hlog hvis
    simp only [List.foldl_nil]
    simp only [List.map_nil, List.nil_append, List.append_nil] at hnd hq
    refine ⟨?_, ?_, hdq, hlog, hvis⟩
    · simpa using hnd
    · intro x hx
      refine hq x ?_
      simpa using hx
  | cons e rest ih =>
    obtain ⟨u, d⟩ := e
    intro st hnd hq hdq hdp hlog hvis
    simp only [List.foldl_cons]
    have hnd' : (st.fetchLog.map Prod.fst ++ u :: rest.map Prod.fst ++
        st.docQueue.map Prod.fst).Nodup := by simpa using hnd
    have hq' : ∀ x ∈ st.fetchLog.map Prod.fst ++ u :: rest.map Prod.fst ++
        st.docQueue.map Prod.fst, x ∈ st.queued := by
      intro x hx
      refine hq x ?_
      simpa using hx
    obtain ⟨a, b, c, dd, ee, _⟩ := processResult_spec fetcher cfg st u d (rest.map Prod.fst)
      hnd' hq' hdq (hdp (u, d) (List.mem_cons_self _ _)) hlog hvis
    exact ih (processResult fetcher cfg st (u, d)) a b c
      (fun e he => hdp e (List.mem_cons_of_mem _ he)) dd ee

/-- Processing one result increments the page counter by at most one. -/
theorem processResult_pages_le (fetcher : String → CrawlerFetch) (cfg : CrawlerConfig)
    (st : CrawlerState) (e : String × Nat) :
    (processResult fetcher cfg st e).pagesDownloaded ≤ st.pagesDownloaded + 1 := by
  obtain ⟨u, d⟩ := e
  cases hf : fetcher u with
  | page html links =>
    simp only [processResult, hf]
    by_cases hh : html ≠ ""
    · rw [if_pos hh]
      by_cases hlt : d < cfg.maxDepth
      · rw [if_pos hlt]
      · rw [if_neg hlt]
    · rw [if_neg hh]
      simp
  | failed reason => simp [processResult, hf]
  | skipped => simp [processResult, hf]

/-- Folding a batch increments the page counter by at most the batch size. -/
theorem processBatch_pages_le (fetcher : String → CrawlerFetch) (cfg : CrawlerConfig) :
    ∀ (pending : List (String × Nat)) (st : CrawlerState),
      (pending.foldl (processResult fetcher cfg) st).pagesDownloaded ≤
        st.pagesDownloaded + pending.length := by
  intro pending
  induction pending with
  | nil => intro st; simp
  | cons e rest ih =>
    intro st
    simp only [List.foldl_cons, List.length_cons]
    calc (rest.foldl (processResult fetcher cfg)
        (processResult fetcher cfg st e)).pagesDownloaded
        ≤ (processResult fetcher cfg st e).pagesDownloaded + rest.length := ih _
      _ ≤ st.pagesDownloaded + 1 + rest.length := by
          have := processResult_pages_le fetcher cfg st e
          omega
      _ = st.pagesDownloaded + (rest.length + 1) := by omega

/-- Invariant preservation across the whole crawl loop: starting from a
state whose fetched and queued URL names are distinct, recorded in
`queued`, and within the depth bound, every state the loop produces has
distinct fetched URL names (no URL dispatched twice), fetched URLs
recorded in `visited`, and all depths within the bound. -/
theorem crawlLoop_spec (fetcher : String → CrawlerFetch) (cfg : CrawlerConfig) :
    ∀ (fuel : Nat) (st : CrawlerState),
      (st.fetchLog.map Prod.fst ++ st.docQueue.map Prod.fst).Nodup →
      (∀ x ∈ st.fetchLog.map Prod.fst ++ st.docQueue.map Prod.fst, x ∈ st.queued) →
      (∀ e ∈ st.docQueue, e.2 ≤ cfg.maxDepth) →
      (∀ e ∈ st.fetchLog, e.2 ≤ cfg.maxDepth) →
      (∀ e ∈ st.fetchLog, e.1 ∈ st.visited) →
      ((crawlLoop fetcher cfg fuel st).fetchLog.map Prod.fst ++
        (crawlLoop fetcher cfg fuel st).docQueue.map Prod.fst).Nodup ∧
      (∀ e ∈ (crawlLoop fetcher cfg fuel st).docQueue, e.2 ≤ cfg.maxDepth) ∧
      (∀ e ∈ (crawlLoop fetcher cfg fuel st).fetchLog, e.2 ≤ cfg.maxDepth) ∧
      (∀ e ∈ (crawlLoop fetcher cfg fuel st).fetchLog,
        e.1 ∈ (crawlLoop fetcher cfg fuel st).visited) := by
  intro fuel
  induction fuel with
  | zero =>
    intro st hnd hq hdq hlog hvis
    exact ⟨hnd, hdq, hlog, hvis⟩
  | succ fuel ih =>
    intro st hnd hq hdq hlog hvis
    rw [crawlLoop]
    by_cases h1 : st.docQueue.isEmpty
    · rw [if_pos h1]
      exact ⟨hnd, hdq, hlog, hvis⟩
    · rw [if_neg h1]
      by_cases h2 : capReached cfg st
      · rw [if_pos h2]
        exact ⟨hnd, hdq, hlog, hvis⟩
      · rw [if_neg h2]
        by_cases h3 : (st.docQueue.take cfg.concurrentRequests).isEmpty
        · rw [if_pos h3]
          exact ⟨hnd, hdq, hlog, hvis⟩
        · rw [if_neg h3]
          set batch := st.docQueue.take cfg.concurrentRequests with hbatch
          set rest := st.docQueue.drop cfg.concurrentRequests with hrest
          have hsplit : st.docQueue = batch ++ rest := (List.take_append_drop _ _).symm
          have hnd₂ : (st.fetchLog.map Prod.fst ++ batch.map Prod.fst ++
              rest.map Prod.fst).Nodup := by
            rw [hsplit] at hnd
            simpa [List.map_append] using hnd
          have hq₂ : ∀ x ∈ st.fetchLog.map Prod.fst ++ batch.map Prod.fst ++
              rest.map Prod.fst, x ∈ st.queued := by
            intro x hx
            refine hq x ?_
            rw [hsplit]
            simp only [List.map_append]
            simpa using hx
          obtain ⟨a, b, c, dd, ee⟩ := processBatch_spec fetcher cfg batch
            { st with docQueue := rest } hnd₂ hq₂
            (fun e he => hdq e (hsplit ▸ List.mem_append_right _ he))
            (fun e he => hdq e (hsplit ▸ List.mem_append_left _ he))
            hlog hvis
          exact ih _ a b c dd ee

/-- Embedding of a cap fact about the loop guard: once `capReached`
holds, the loop stops immediately without changing the state. -/
theorem crawlLoop_stops_at_cap (fetcher : String → CrawlerFetch) (cfg : CrawlerConfig)
    (fuel : Nat) (st : CrawlerState) (h : capReached cfg st = true) :
    crawlLoop fetcher cfg fuel st = st := by
  cases fuel with
  | zero => rfl
  | succ fuel =>
    rw [crawlLoop]
    by_cases h1 : st.docQueue.isEmpty
    · rw [if_pos h1]
    · rw [if_neg h1, if_pos h]

/-- Page-cap bound for the loop: when `max_pages = some n`, every state
the loop produces keeps `pages_downloaded` at most
`n - 1 + concurrent_requests`, since the cap is tested only at batch
boundaries and a batch holds at most `concurrent_requests` URLs. -/
theorem crawlLoop_pages_le (fetcher : String → CrawlerFetch) (cfg : CrawlerConfig)
    (n : Nat) (hmax : cfg.maxPages = some n) :
    ∀ (fuel : Nat) (st : CrawlerState),
      st.pagesDownloaded ≤ n - 1 + cfg.concurrentRequests →
      (crawlLoop fetcher cfg fuel st).pagesDownloaded ≤ n - 1 + cfg.concurrentRequests := by
  intro fuel
  induction fuel with
  | zero => exact fun st h => h
  | succ fuel ih =>
    intro st hst
    rw [crawlLoop]
    by_cases h1 : st.docQueue.isEmpty
    · rw [if_pos h1]; exact hst
    · rw [if_neg h1]
      by_cases h2 : capReached cfg st
      · rw [if_pos h2]; exact hst
      · rw [if_neg h2]
        by_cases h3 : (st.docQueue.take cfg.concurrentRequests).isEmpty
        · rw [if_pos h3]; exact hst
        · rw [if_neg h3]
          refine ih _ ?_
          have hlt : st.pagesDownloaded < n := by
            simp [capReached, hmax] at h2
            exact h2
          have hbatchlen : (st.docQueue.take cfg.concurrentRequests).length ≤
              cfg.concurrentRequests := List.length_take_le _ _
          have := processBatch_pages_le fetcher cfg (st.docQueue.take cfg.concurrentRequests)
            { st with docQueue := st.docQueue.drop cfg.concurrentRequests }
          simp only at this
          omega

/-- Initial loop invariants established by the reset prologue of
`Crawler.crawl`: the final state of any run has duplicate-free fetch
log names, all logged and queued depths within the bound, and every
fetched URL in `visited`. -/
theorem crawl_spec (fetcher : String → CrawlerFetch) (cfg : CrawlerConfig)
    (fuel : Nat) (st : CrawlerState) :
    ((crawl fetcher cfg fuel st).fetchLog.map Prod.fst).Nodup ∧
    (∀ e ∈ (crawl fetcher cfg fuel st).fetchLog, e.2 ≤ cfg.maxDepth) ∧
    (∀ e ∈ (crawl fetcher cfg fuel st).docQueue, e.2 ≤ cfg.maxDepth) ∧
    (∀ e ∈ (crawl fetcher cfg fuel st).fetchLog,
      e.1 ∈ (crawl fetcher cfg fuel st).visited) := by
  have h := crawlLoop_spec fetcher cfg fuel
    { st with
      pagesDownloaded := 0, visited := [], queued := [cfg.baseUrl],
      failedUrls := [], docLinks := [], auxLinks := [],
      externalLinks := [], assetLinks := [],
      docQueue := [(cfg.baseUrl, 0)], fetchLog := [] }
    (by simp) (by simp) (by simp) (by simp) (by simp)
  obtain ⟨a, b, c, d⟩ := h
  exact ⟨(List.nodup_append.mp a).1, c, b, d⟩

end Crawler

namespace Scraper

/-- Specification of the link-enqueue loop of
`DocumentationScraper.crawl`: given a context `C` of URL names pairwise
distinct from the pending queue and recorded in `queued`, the loop
preserves distinctness and the `queued` record, only grows `queued`,
leaves the log, `visited` and the counters unchanged, and appends only
entries at depth `depth + 1`. -/
theorem enqueueLinks_spec (env : ScraperEnv) (depth : Nat) :
    ∀ (links : List String) (st : ScraperState) (C : List String),
      (C ++ st.queue.map Prod.fst).Nodup →
      (∀ x ∈ C ++ st.queue.map Prod.fst, x ∈ st.queued) →
      (enqueueLinks env depth links st).fetchLog = st.fetchLog ∧
      (enqueueLinks env depth links st).visited = st.visited ∧
      (enqueueLinks env depth links st).pagesDownloaded = st.pagesDownloaded ∧
      (C ++ (enqueueLinks env depth links st).queue.map Prod.fst).Nodup ∧
      (∀ x ∈ C ++ (enqueueLinks env depth links st).queue.map Prod.fst,
        x ∈ (enqueueLinks env depth links st).queued) ∧
      (∀ x ∈ st.queued, x ∈ (enqueueLinks env depth links st).queued) ∧
      (∀ e ∈ (enqueueLinks env depth links st).queue, e ∈ st.queue ∨ e.2 = depth + 1) := by
  intro links
  induction links with
  | nil =>
    intro st C hnd hq
    exact ⟨rfl, rfl, rfl, hnd, hq, fun x hx => hx, fun e he => Or.inl he⟩
  | cons l links ih =>
    intro st C hnd hq
    by_cases hg : l ∉ st.visited ∧ l ∉ st.queued ∧ env.is_valid_doc_url l ∧
        ¬ (st.queue.any fun item => item.1 = l)
    · have hstep : enqueueLinks env depth (l :: links) st =
          enqueueLinks env depth links
            { st with queue := st.queue ++ [(l, depth + 1)],
                      queued := addSet st.queued l } := by
        simp only [enqueueLinks, List.foldl_cons, if_pos hg]
      have hlC : l ∉ C ++ st.queue.map Prod.fst := fun hl => hg.2.1 (hq l hl)
      have hnd' : (C ++ (st.queue ++ [(l, depth + 1)]).map Prod.fst).Nodup := by
        rw [List.map_append, ← List.append_assoc]
        simp only [List.map_cons, List.map_nil]
        rw [List.nodup_append]
        refine ⟨hnd, List.nodup_singleton l, ?_⟩
        intro x hx
        simp only [List.mem_singleton]
        intro hxl
        exact hlC (hxl ▸ hx)
      have hq' : ∀ x ∈ C ++ (st.queue ++ [(l, depth + 1)]).map Prod.fst,
          x ∈ addSet st.queued l := by
        intro x hx
        rw [List.map_append, ← List.append_assoc] at hx
        rcases List.mem_append.mp hx with hx | hx
        · exact mem_addSet_of_mem (hq x hx)
        · simp only [List.map_cons, List.map_nil, List.mem_singleton] at hx
          exact hx ▸ mem_addSet_self
      rw [hstep]
      obtain ⟨e1, e2, e3, a, b, c, d⟩ := ih
        { st with queue := st.queue ++ [(l, depth + 1)], queued := addSet st.queued l }
        C hnd' hq'
      refine ⟨e1, e2, e3, a, b, fun x hx => c x (mem_addSet_of_mem hx), fun e he => ?_⟩
      rcases d e he with he' | he'
      · rcases List.mem_append.mp he' with he'' | he''
        · exact Or.inl he''
        · simp only [List.mem_singleton] at he''
          exact Or.inr (he'' ▸ rfl)
      · exact Or.inr he'
    · have hstep : enqueueLinks env depth (l :: links) st =
          enqueueLinks env depth links st := by
        simp only [enqueueLinks, List.foldl_cons, if_neg hg]
      rw [hstep]
      exact ih st C hnd hq

/-- Specification of processing one completed `download_page` result:
the URL is logged and visited, previously visited URLs stay visited,
`queued` only grows, at most one page is counted, and the tracked URL
names stay distinct, recorded in `queued`, and within the depth bound. -/
theorem processResult_inv (env : ScraperEnv) (cfg : ScraperConfig)
    (st : ScraperState) (u : String) (d : Nat) (ctx : List String)
    (hnd : (st.fetchLog.map Prod.fst ++ u :: ctx ++ st.queue.map Prod.fst).Nodup)
    (hq : ∀ x ∈ st.fetchLog.map Prod.fst ++ u :: ctx ++ st.queue.map Prod.fst, x ∈ st.queued)
    (hdq : ∀ e ∈ st.queue, e.2 ≤ cfg.maxDepth)
    (hd : d ≤ cfg.maxDepth)
    (hlog : ∀ e ∈ st.fetchLog, e.2 ≤ cfg.maxDepth)
    (hvis : ∀ e ∈ st.fetchLog, e.1 ∈ st.visited) :
    ((processResult env cfg st (u, d)).fetchLog.map Prod.fst ++ ctx ++
      (processResult env cfg st (u, d)).queue.map Prod.fst).Nodup ∧
    (∀ x ∈ (processResult env cfg st (u, d)).fetchLog.map Prod.fst ++ ctx ++
      (processResult env cfg st (u, d)).queue.map Prod.fst,
      x ∈ (processResult env cfg st (u, d)).queued) ∧
    (∀ e ∈ (processResult env cfg st (u, d)).queue, e.2 ≤ cfg.maxDepth) ∧
    (∀ e ∈ (processResult env cfg st (u, d)).fetchLog, e.2 ≤ cfg.maxDepth) ∧
    (∀ e ∈ (processResult env cfg st (u, d)).fetchLog,
      e.1 ∈ (processResult env cfg st (u, d)).visited) ∧
    (processResult env cfg st (u, d)).pagesDownloaded ≤ st.pagesDownloaded + 1 := by
  have hshuffle : st.fetchLog.map Prod.fst ++ u :: ctx ++ st.queue.map Prod.fst =
      (st.fetchLog ++ [(u, d)]).map Prod.fst ++ ctx ++ st.queue.map Prod.fst := by
    simp
  rw [hshuffle] at hnd hq
  have hlog' : ∀ e ∈ st.fetchLog ++ [(u, d)], e.2 ≤ cfg.maxDepth := by
    intro e he
    rcases List.mem_append.mp he with he | he
    · exact hlog e he
    · simp only [List.mem_singleton] at he
      exact he ▸ hd
  have hvis' : ∀ e ∈ st.fetchLog ++ [(u, d)], e.1 ∈ addSet st.visited u := by
    intro e he
    rcases List.mem_append.mp he with he | he
    · exact mem_addSet_of_mem (hvis e he)
    · simp only [List.mem_singleton] at he
      exact he ▸ mem_addSet_self
  have key : ∀ stMid : ScraperState,
      stMid.fetchLog = st.fetchLog ++ [(u, d)] →
      stMid.visited = addSet st.visited u →
      stMid.queued = st.queued →
      stMid.queue = st.queue →
      stMid.pagesDownloaded ≤ st.pagesDownloaded + 1 →
      ∀ res : ScraperState,
        res = (if d < cfg.maxDepth then enqueueLinks env d
          (env.downloadPage u).2.2 stMid else stMid) →
        (res.fetchLog.map Prod.fst ++ ctx ++ res.queue.map Prod.fst).Nodup ∧
        (∀ x ∈ res.fetchLog.map Prod.fst ++ ctx ++ res.queue.map Prod.fst, x ∈ res.queued) ∧
        (∀ e ∈ res.queue, e.2 ≤ cfg.maxDepth) ∧
        (∀ e ∈ res.fetchLog, e.2 ≤ cfg.maxDepth) ∧
        (∀ e ∈ res.fetchLog, e.1 ∈ res.visited) ∧
        res.pagesDownloaded ≤ st.pagesDownloaded + 1 := by
    intro stMid hLg hVs hQd hQ hPg res hres
    by_cases hlt : d < cfg.maxDepth
    · rw [if_pos hlt] at hres
      obtain ⟨e1, e2, e3, a, b, c, dd⟩ := enqueueLinks_spec env d
        (env.downloadPage u).2.2 stMid ((st.fetchLog ++ [(u, d)]).map Prod.fst ++ ctx)
        (by rw [hQ]; exact hnd) (by rw [hQ, hQd]; exact hq)
      subst hres
      rw [e1, e2, e3, hLg, hVs]
      refine ⟨a, ?_, ?_, hlog', hvis', hPg⟩
      · intro x hx
        exact b x hx
      · intro e he
        rcases dd e he with he' | he'
        · exact hdq e (hQ ▸ he')
        · omega
    · rw [if_neg hlt] at hres
      subst hres
      rw [hLg, hVs, hQd, hQ]
      exact ⟨hnd, hq, hdq, hlog', hvis', hPg⟩
  rcases hdl : env.downloadPage u with ⟨title, html, links⟩
  by_cases ht : title ≠ "" ∧ html ≠ ""
  · by_cases hs : env.saveContent u title html
    · refine key
        { st with fetchLog := st.fetchLog ++ [(u, d)], visited := addSet st.visited u,
                  pagesDownloaded := st.pagesDownloaded + 1 }
        rfl rfl rfl rfl (by simp) _ ?_
      simp only [processResult, hdl, if_pos ht, if_pos hs, hdl]
    · refine key
        { st with fetchLog := st.fetchLog ++ [(u, d)], visited := addSet st.visited u }
        rfl rfl rfl rfl (by simp) _ ?_
      simp only [processResult, hdl, if_pos ht, if_neg hs, hdl]
  · refine key
      { st with fetchLog := st.fetchLog ++ [(u, d)], visited := addSet st.visited u }
      rfl rfl rfl rfl (by simp) _ ?_
    simp only [processResult, hdl, if_neg ht, hdl]

/-- Folding a whole batch of completed fetches preserves the loop
invariants of `DocumentationScraper.crawl`. -/
theorem processBatch_inv (env : ScraperEnv) (cfg : ScraperConfig) :
    ∀ (pending : List (String × Nat)) (st : ScraperState),
      (st.fetchLog.map Prod.fst ++ pending.map Prod.fst ++ st.queue.map Prod.fst).Nodup →
      (∀ x ∈ st.fetchLog.map Prod.fst ++ pending.map Prod.fst ++ st.queue.map Prod.fst,
        x ∈ st.queued) →
      (∀ e ∈ st.queue, e.2 ≤ cfg.maxDepth) →
      (∀ e ∈ pending, e.2 ≤ cfg.maxDepth) →
      (∀ e ∈ st.fetchLog, e.2 ≤ cfg.maxDepth) →
      (∀ e ∈ st.fetchLog, e.1 ∈ st.visited) →
      ((pending.foldl (processResult env cfg) st).fetchLog.map Prod.fst ++
        (pending.foldl (processResult env cfg) st).queue.map Prod.fst).Nodup ∧
      (∀ x ∈ (pending.foldl (processResult env cfg) st).fetchLog.map Prod.fst ++
        (pending.foldl (processResult env cfg) st).queue.map Prod.fst,
        x ∈ (pending.foldl (processResult env cfg) st).queued) ∧
      (∀ e ∈ (pending.foldl (processResult env cfg) st).queue, e.2 ≤ cfg.maxDepth) ∧
      (∀ e ∈ (pending.foldl (processResult env cfg) st).fetchLog, e.2 ≤ cfg.maxDepth) ∧
      (∀ e ∈ (pending.foldl (processResult env cfg) st).fetchLog,
        e.1 ∈ (pending.foldl (processResult env cfg) st).visited) := by
  intro pending
  induction pending with
  | nil =>
    intro st hnd hq hdq hdp hlog hvis
    simp only [List.foldl_nil]
    refine ⟨?_, ?_, hdq, hlog, hvis⟩
    · simpa using hnd
    · intro x hx
      refine hq x ?_
      simpa using hx
  | cons e rest ih =>
    obtain ⟨u, d⟩ := e
    intro st hnd hq hdq hdp hlog hvis
    simp only [List.foldl_cons]
    have hnd' : (st.fetchLog.map Prod.fst ++ u :: rest.map Prod.fst ++
        st.queue.map Prod.fst).Nodup := by simpa using hnd
    have hq' : ∀ x ∈ st.fetchLog.map Prod.fst ++ u :: rest.map Prod.fst ++
        st.queue.map Prod.fst, x ∈ st.queued := by
      intro x hx
      refine hq x ?_
      simpa using hx
    obtain ⟨a, b, c, dd, ee, _⟩ := processResult_inv env cfg st u d (rest.map Prod.fst)
      hnd' hq' hdq (hdp (u, d) (List.mem_cons_self _ _)) hlog hvis
    exact ih (processResult env cfg st (u, d)) a b c
      (fun e he => hdp e (List.mem_cons_of_mem _ he)) dd ee

/-- Invariant preservation across the whole `DocumentationScraper.crawl`
loop: distinct fetched URL names, fetched URLs in `visited`, depths
within the bound. -/
theorem crawlLoop_inv (env : ScraperEnv) (cfg : ScraperConfig) :
    ∀ (fuel : Nat) (st : ScraperState),
      (st.fetchLog.map Prod.fst ++ st.queue.map Prod.fst).Nodup →
      (∀ x ∈ st.fetchLog.map Prod.fst ++ st.queue.map Prod.fst, x ∈ st.queued) →
      (∀ e ∈ st.queue, e.2 ≤ cfg.maxDepth) →
      (∀ e ∈ st.fetchLog, e.2 ≤ cfg.maxDepth) →
      (∀ e ∈ st.fetchLog, e.1 ∈ st.visited) →
      ((crawlLoop env cfg fuel st).fetchLog.map Prod.fst ++
        (crawlLoop env cfg fuel st).queue.map Prod.fst).Nodup ∧
      (∀ e ∈ (crawlLoop env cfg fuel st).queue, e.2 ≤ cfg.maxDepth) ∧
      (∀ e ∈ (crawlLoop env cfg fuel st).fetchLog, e.2 ≤ cfg.maxDepth) ∧
      (∀ e ∈ (crawlLoop env cfg fuel st).fetchLog,
        e.1 ∈ (crawlLoop env cfg fuel st).visited) := by
  intro fuel
  induction fuel with
  | zero =>
    intro st hnd hq hdq hlog hvis
    exact ⟨hnd, hdq, hlog, hvis⟩
  | succ fuel ih =>
    intro st hnd hq hdq hlog hvis
    rw [crawlLoop]
    by_cases h1 : st.queue.isEmpty
    · rw [if_pos h1]
      exact ⟨hnd, hdq, hlog, hvis⟩
    · rw [if_neg h1]
      by_cases h2 : capReached cfg st
      · rw [if_pos h2]
        exact ⟨hnd, hdq, hlog, hvis⟩
      · rw [if_neg h2]
        by_cases h3 : (st.queue.take cfg.concurrentRequests).isEmpty
        · rw [if_pos h3]
          exact ⟨hnd, hdq, hlog, hvis⟩
        · rw [if_neg h3]
          set batch := st.queue.take cfg.concurrentRequests with hbatch
          set rest := st.queue.drop cfg.concurrentRequests with hrest
          have hsplit : st.queue = batch ++ rest := (List.take_append_drop _ _).symm
          have hnd₂ : (st.fetchLog.map Prod.fst ++ batch.map Prod.fst ++
              rest.map Prod.fst).Nodup := by
            rw [hsplit] at hnd
            simpa [List.map_append] using hnd
          have hq₂ : ∀ x ∈ st.fetchLog.map Prod.fst ++ batch.map Prod.fst ++
              rest.map Prod.fst, x ∈ st.queued := by
            intro x hx
            refine hq x ?_
            rw [hsplit]
            simp only [List.map_append]
            simpa using hx
          obtain ⟨a, b, c, dd, ee⟩ := processBatch_inv env cfg batch
            { st with queue := rest } hnd₂ hq₂
            (fun e he => hdq e (hsplit ▸ List.mem_append_right _ he))
            (fun e he => hdq e (hsplit ▸ List.mem_append_left _ he))
            hlog hvis
          exact ih _ a b c dd ee

/-- Facts about the reset prologue `initState` of
`DocumentationScraper.crawl`: for duplicate-free start URLs the initial
queue names are duplicate-free and recorded in `queued`, every seed
entry is at depth 0, and the log is empty. -/
theorem initState_spec (env : ScraperEnv) (cfg : ScraperConfig)
    (startUrls : Option (List String)) (pre : ScraperState)
    (hnd : (match startUrls with
      | some l => if l.isEmpty then [cfg.baseUrl] else l
      | none => [cfg.baseUrl]).Nodup) :
    ((initState env cfg startUrls pre).fetchLog.map Prod.fst ++
      (initState env cfg startUrls pre).queue.map Prod.fst).Nodup ∧
    (∀ x ∈ (initState env cfg startUrls pre).fetchLog.map Prod.fst ++
      (initState env cfg startUrls pre).queue.map Prod.fst,
      x ∈ (initState env cfg startUrls pre).queued) ∧
    (∀ e ∈ (initState env cfg startUrls pre).queue, e.2 = 0) ∧
    (initState env cfg startUrls pre).fetchLog = [] := by
  refine ⟨?_, ?_, ?_, rfl⟩
  · simp only [initState, List.map_nil, List.nil_append, List.map_map]
    have h2 := hnd.filter env.is_valid_doc_url
    simpa [Function.comp_def] using h2
  · intro x hx
    simp only [initState, List.map_nil, List.nil_append, List.map_map] at hx
    simp only [initState]
    have hx' : x ∈ (match startUrls with
        | some l => if l.isEmpty then [cfg.baseUrl] else l
        | none => [cfg.baseUrl]).filter env.is_valid_doc_url := by
      simpa [Function.comp_def] using hx
    exact mem_updateSet_of_mem_arg hx'
  · intro e he
    simp only [initState, List.mem_map] at he
    obtain ⟨x, _, rfl⟩ := he
    rfl

/-- Composition of the reset prologue and the loop: a
`DocumentationScraper.crawl` run whose effective start-URL list is
duplicate-free never dispatches the same URL twice. -/
theorem crawl_nodup (env : ScraperEnv) (cfg : ScraperConfig) (fuel : Nat)
    (startUrls : Option (List String)) (pre : ScraperState)
    (hnd : (match startUrls with
      | some l => if l.isEmpty then [cfg.baseUrl] else l
      | none => [cfg.baseUrl]).Nodup) :
    ((crawl env cfg fuel startUrls pre).fetchLog.map Prod.fst).Nodup := by
  obtain ⟨a, b, c, d⟩ := initState_spec env cfg startUrls pre hnd
  have h := crawlLoop_inv env cfg fuel (initState env cfg startUrls pre) a b
    (fun e he => le_of_eq_of_le (c e he) (Nat.zero_le _))
    (by rw [d]; intro e he; cases he)
    (by rw [d]; intro e he; cases he)
  exact (List.nodup_append.mp h.1).1

/-- Unconditional effects of the link-enqueue loop: the log and
`visited` are untouched and new queue entries sit at `depth + 1`. -/
theorem enqueueLinks_effects (env : ScraperEnv) (depth : Nat) :
    ∀ (links : List String) (st : ScraperState),
      (enqueueLinks env depth links st).fetchLog = st.fetchLog ∧
      (enqueueLinks env depth links st).visited = st.visited ∧
      (∀ e ∈ (enqueueLinks env depth links st).queue, e ∈ st.queue ∨ e.2 = depth + 1) := by
  intro links
  induction links with
  | nil => exact fun st => ⟨rfl, rfl, fun e he => Or.inl he⟩
  | cons l links ih =>
    intro st
    by_cases hg : l ∉ st.visited ∧ l ∉ st.queued ∧ env.is_valid_doc_url l ∧
        ¬ (st.queue.any fun item => item.1 = l)
    · have hstep : enqueueLinks env depth (l :: links) st =
          enqueueLinks env depth links
            { st with queue := st.queue ++ [(l, depth + 1)],
                      queued := addSet st.queued l } := by
        simp only [enqueueLinks, List.foldl_cons, if_pos hg]
      rw [hstep]
      obtain ⟨a, b, c⟩ := ih
        { st with queue := st.queue ++ [(l, depth + 1)], queued := addSet st.queued l }
      refine ⟨a, b, fun e he => ?_⟩
      rcases c e he with he' | he'
      · rcases List.mem_append.mp he' with he'' | he''
        · exact Or.inl he''
        · simp only [List.mem_singleton] at he''
          exact Or.inr (he'' ▸ rfl)
      · exact Or.inr he'
    · have hstep : enqueueLinks env depth (l :: links) st =
          enqueueLinks env depth links st := by
        simp only [enqueueLinks, List.foldl_cons, if_neg hg]
      rw [hstep]
      exact ih st

/-- Unconditional effects of processing one result: the pair is
appended to the log, the URL is added to `visited` whether or not the
download produced content, and new queue entries sit one level deeper
than a frontier entry strictly below the depth bound. -/
theorem processResult_effects (env : ScraperEnv) (cfg : ScraperConfig)
    (st : ScraperState) (u : String) (d : Nat) :
    (processResult env cfg st (u, d)).fetchLog = st.fetchLog ++ [(u, d)] ∧
    (processResult env cfg st (u, d)).visited = addSet st.visited u ∧
    (∀ e ∈ (processResult env cfg st (u, d)).queue,
      e ∈ st.queue ∨ (e.2 = d + 1 ∧ d < cfg.maxDepth)) := by
  have key : ∀ stMid : ScraperState,
      stMid.fetchLog = st.fetchLog ++ [(u, d)] →
      stMid.visited = addSet st.visited u →
      stMid.queue = st.queue →
      ∀ res : ScraperState,
        res = (if d < cfg.maxDepth then enqueueLinks env d
          (env.downloadPage u).2.2 stMid else stMid) →
        res.fetchLog = st.fetchLog ++ [(u, d)] ∧
        res.visited = addSet st.visited u ∧
        (∀ e ∈ res.queue, e ∈ st.queue ∨ (e.2 = d + 1 ∧ d < cfg.maxDepth)) := by
    intro stMid hLg hVs hQ res hres
    by_cases hlt : d < cfg.maxDepth
    · rw [if_pos hlt] at hres
      obtain ⟨a, b, c⟩ := enqueueLinks_effects env d (env.downloadPage u).2.2 stMid
      subst hres
      refine ⟨a.trans hLg, b.trans hVs, fun e he => ?_⟩
      rcases c e he with he' | he'
      · exact Or.inl (hQ ▸ he')
      · exact Or.inr ⟨he', hlt⟩
    · rw [if_neg hlt] at hres
      subst hres
      exact ⟨hLg, hVs, fun e he => Or.inl (hQ ▸ he)⟩
  rcases hdl : env.downloadPage u with ⟨title, html, links⟩
  by_cases ht : title ≠ "" ∧ html ≠ ""
  · by_cases hs : env.saveContent u title html
    · refine key
        { st with fetchLog := st.fetchLog ++ [(u, d)], visited := addSet st.visited u,
                  pagesDownloaded := st.pagesDownloaded + 1 }
        rfl rfl rfl _ ?_
      simp only [processResult, hdl, if_pos ht, if_pos hs, hdl]
    · refine key
        { st with fetchLog := st.fetchLog ++ [(u, d)], visited := addSet st.visited u }
        rfl rfl rfl _ ?_
      simp only [processResult, hdl, if_pos ht, if_neg hs, hdl]
  · refine key
      { st with fetchLog := st.fetchLog ++ [(u, d)], visited := addSet st.visited u }
      rfl rfl rfl _ ?_
    simp only [processResult, hdl, if_neg ht, hdl]

/-- Unconditional effects of folding a batch: the batch is appended to
the log in order, `visited` only grows and absorbs every batch URL, and
queue entries are old ones or sit one level below the depth bound. -/
theorem processBatch_effects (env : ScraperEnv) (cfg : ScraperConfig) :
    ∀ (pending : List (String × Nat)) (st : ScraperState),
      (pending.foldl (processResult env cfg) st).fetchLog = st.fetchLog ++ pending ∧
      (∀ x ∈ st.visited, x ∈ (pending.foldl (processResult env cfg) st).visited) ∧
      (∀ e ∈ pending, e.1 ∈ (pending.foldl (processResult env cfg) st).visited) ∧
      (∀ e ∈ (pending.foldl (processResult env cfg) st).queue,
        e ∈ st.queue ∨ ∃ d, e.2 = d + 1 ∧ d < cfg.maxDepth) := by
  intro pending
  induction pending with
  | nil => exact fun st => ⟨by simp, fun x hx => hx, fun e he => absurd he (List.not_mem_nil e),
      fun e he => Or.inl he⟩
  | cons e0 rest ih =>
    obtain ⟨u, d⟩ := e0
    intro st
    simp only [List.foldl_cons]
    obtain ⟨a, b, c⟩ := processResult_effects env cfg st u d
    obtain ⟨a', b', c', d'⟩ := ih (processResult env cfg st (u, d))
    refine ⟨?_, ?_, ?_, ?_⟩
    · rw [a', a]
      simp
    · intro x hx
      exact b' x (b ▸ mem_addSet_of_mem hx)
    · intro e he
      rcases List.mem_cons.mp he with rfl | he'
      · exact b' _ (b ▸ mem_addSet_self)
      · exact c' e he'
    · intro e he
      rcases d' e he with he' | he'
      · rcases c e he' with he'' | he''
        · exact Or.inl he''
        · exact Or.inr ⟨d, he''⟩
      · exact Or.inr he'

/-- Depth and visited invariants across the whole loop, with no
assumption on the seed URLs: every dispatched entry respects the depth
bound and its URL ends up in `visited`. -/
theorem crawlLoop_effects (env : ScraperEnv) (cfg : ScraperConfig) :
    ∀ (fuel : Nat) (st : ScraperState),
      (∀ e ∈ st.queue, e.2 ≤ cfg.maxDepth) →
      (∀ e ∈ st.fetchLog, e.2 ≤ cfg.maxDepth) →
      (∀ e ∈ st.fetchLog, e.1 ∈ st.visited) →
      (∀ e ∈ (crawlLoop env cfg fuel st).fetchLog, e.2 ≤ cfg.maxDepth) ∧
      (∀ e ∈ (crawlLoop env cfg fuel st).fetchLog,
        e.1 ∈ (crawlLoop env cfg fuel st).visited) ∧
      (∀ e ∈ (crawlLoop env cfg fuel st).queue, e.2 ≤ cfg.maxDepth) := by
  intro fuel
  induction fuel with
  | zero => exact fun st h1 h2 h3 => ⟨h2, h3, h1⟩
  | succ fuel ih =>
    intro st hdq hlog hvis
    rw [crawlLoop]
    by_cases h1 : st.queue.isEmpty
    · rw [if_pos h1]; exact ⟨hlog, hvis, hdq⟩
    · rw [if_neg h1]
      by_cases h2 : capReached cfg st
      · rw [if_pos h2]; exact ⟨hlog, hvis, hdq⟩
      · rw [if_neg h2]
        by_cases h3 : (st.queue.take cfg.concurrentRequests).isEmpty
        · rw [if_pos h3]; exact ⟨hlog, hvis, hdq⟩
        · rw [if_neg h3]
          set batch := st.queue.take cfg.concurrentRequests with hbatch
          set rest := st.queue.drop cfg.concurrentRequests with hrest
          have hsplit : st.queue = batch ++ rest := (List.take_append_drop _ _).symm
          obtain ⟨a, b, c, d⟩ := processBatch_effects env cfg batch { st with queue := rest }
          refine ih _ ?_ ?_ ?_
          · intro e he
            rcases d e he with he' | ⟨d0, hd0, hlt⟩
            · exact hdq e (hsplit ▸ List.mem_append_right _ he')
            · omega
          · intro e he
            rw [a] at he
            rcases List.mem_append.mp he with he' | he'
            · exact hlog e he'
            · exact hdq e (hsplit ▸ List.mem_append_left _ he')
          · intro e he
            rw [a] at he
            rcases List.mem_append.mp he with he' | he'
            · exact b _ (hvis e he')
            · exact c e he'

/-- Depth and visited facts for a whole `DocumentationScraper.crawl`
run, with no assumption on the seed URLs. -/
theorem crawl_effects (env : ScraperEnv) (cfg : ScraperConfig) (fuel : Nat)
    (startUrls : Option (List String)) (pre : ScraperState) :
    (∀ e ∈ (crawl env cfg fuel startUrls pre).fetchLog, e.2 ≤ cfg.maxDepth) ∧
    (∀ e ∈ (crawl env cfg fuel startUrls pre).fetchLog,
      e.1 ∈ (crawl env cfg fuel startUrls pre).visited) ∧
    (∀ e ∈ (crawl env cfg fuel startUrls pre).queue, e.2 ≤ cfg.maxDepth) := by
  have hq0 : ∀ e ∈ (initState env cfg startUrls pre).queue, e.2 = 0 := by
    intro e he
    simp only [initState, List.mem_map] at he
    obtain ⟨x, _, rfl⟩ := he
    rfl
  have hl0 : (initState env cfg startUrls pre).fetchLog = [] := rfl
  exact crawlLoop_effects env cfg fuel (initState env cfg startUrls pre)
    (fun e he => le_of_eq_of_le (hq0 e he) (Nat.zero_le _))
    (by rw [hl0]; intro e he; cases he)
    (by rw [hl0]; intro e he; cases he)

/-- Effects of one completed future in the refined model: `visited`
grows, absorbs the processed URL whether or not the entry crashed, and
the log is untouched (it is extended at dispatch time). -/
theorem processResult404_effects (env : ScraperEnv) (is404 : String → Bool)
    (cfg : ScraperConfig) (st : ScraperState) (u : String) (d : Nat) :
    (∀ x ∈ st.visited, x ∈ (processResult404 env is404 cfg st (u, d)).1.visited) ∧
    u ∈ (processResult404 env is404 cfg st (u, d)).1.visited ∧
    (processResult404 env is404 cfg st (u, d)).1.fetchLog = st.fetchLog := by
  by_cases h4 : is404 u = true
  · have hstep : processResult404 env is404 cfg st (u, d) =
        ({ st with visited := addSet st.visited u }, decide (d < cfg.maxDepth)) := by
      simp only [processResult404, if_pos h4]
    rw [hstep]
    exact ⟨fun x hx => mem_addSet_of_mem hx, mem_addSet_self, rfl⟩
  · rcases hdl : env.downloadPage u with ⟨title, html, links⟩
    have key : ∀ stMid : ScraperState,
        stMid.visited = addSet st.visited u →
        stMid.fetchLog = st.fetchLog →
        ∀ res : ScraperState,
          res = (if d < cfg.maxDepth then enqueueLinks env d links stMid else stMid) →
          (∀ x ∈ st.visited, x ∈ res.visited) ∧ u ∈ res.visited ∧
          res.fetchLog = st.fetchLog := by
      intro stMid hVs hLg res hres
      by_cases hlt : d < cfg.maxDepth
      · rw [if_pos hlt] at hres
        obtain ⟨a, b, _⟩ := enqueueLinks_effects env d links stMid
        subst hres
        refine ⟨fun x hx => ?_, ?_, a.trans hLg⟩
        · rw [b, hVs]; exact mem_addSet_of_mem hx
        · rw [b, hVs]; exact mem_addSet_self
      · rw [if_neg hlt] at hres
        subst hres
        refine ⟨fun x hx => ?_, ?_, hLg⟩
        · rw [hVs]; exact mem_addSet_of_mem hx
        · rw [hVs]; exact mem_addSet_self
    by_cases ht : title ≠ "" ∧ html ≠ ""
    · by_cases hs : env.saveContent u title html
      · have hstep : processResult404 env is404 cfg st (u, d) =
            (if d < cfg.maxDepth then
               enqueueLinks env d links
                 { st with visited := addSet st.visited u,
                           pagesDownloaded := st.pagesDownloaded + 1 }
             else { st with visited := addSet st.visited u,
                            pagesDownloaded := st.pagesDownloaded + 1 }, false) := by
          simp only [processResult404, if_neg h4, hdl, if_pos ht, if_pos hs]
        rw [hstep]
        exact key { st with visited := addSet st.visited u,
                            pagesDownloaded := st.pagesDownloaded + 1 } rfl rfl _ rfl
      · have hstep : processResult404 env is404 cfg st (u, d) =
            (if d < cfg.maxDepth then
               enqueueLinks env d links { st with visited := addSet st.visited u }
             else { st with visited := addSet st.visited u }, false) := by
          simp only [processResult404, if_neg h4, hdl, if_pos ht, if_neg hs]
        rw [hstep]
        exact key { st with visited := addSet st.visited u } rfl rfl _ rfl
    · have hstep : processResult404 env is404 cfg st (u, d) =
          (if d < cfg.maxDepth then
             enqueueLinks env d links { st with visited := addSet st.visited u }
           else { st with visited := addSet st.visited u }, false) := by
        simp only [processResult404, if_neg h4, hdl, if_neg ht]
      rw [hstep]
      exact key { st with visited := addSet st.visited u } rfl rfl _ rfl

/-- Effects of folding one batch in the refined model: `visited` only
grows, the log is untouched, and — when no member crashed — every
member of the batch ends up in `visited`. -/
theorem processBatch404_effects (env : ScraperEnv) (is404 : String → Bool)
    (cfg : ScraperConfig) :
    ∀ (batch : List (String × Nat)) (st : ScraperState),
      (∀ x ∈ st.visited, x ∈ (processBatch404 env is404 cfg batch st).1.visited) ∧
      (processBatch404 env is404 cfg batch st).1.fetchLog = st.fetchLog ∧
      ((processBatch404 env is404 cfg batch st).2 = false →
        ∀ e ∈ batch, e.1 ∈ (processBatch404 env is404 cfg batch st).1.visited) := by
  intro batch
  induction batch with
  | nil => exact fun st => ⟨fun x hx => hx, rfl, fun _ e he => absurd he (List.not_mem_nil e)⟩
  | cons e0 rest ih =>
    intro st
    obtain ⟨u, d⟩ := e0
    obtain ⟨a, b, c⟩ := processResult404_effects env is404 cfg st u d
    by_cases hcr : (processResult404 env is404 cfg st (u, d)).2 = true
    · have hstep : processBatch404 env is404 cfg ((u, d) :: rest) st =
          processResult404 env is404 cfg st (u, d) := by
        simp only [processBatch404, if_pos hcr]
      rw [hstep]
      exact ⟨a, c, fun hfalse => Bool.noConfusion (hcr.symm.trans hfalse)⟩
    · have hstep : processBatch404 env is404 cfg ((u, d) :: rest) st =
          processBatch404 env is404 cfg rest (processResult404 env is404 cfg st (u, d)).1 := by
        simp only [processBatch404, if_neg hcr]
      rw [hstep]
      obtain ⟨a', b', c'⟩ := ih (processResult404 env is404 cfg st (u, d)).1
      refine ⟨fun x hx => a' x (a x hx), b'.trans c, fun hfalse e he => ?_⟩
      rcases List.mem_cons.mp he with rfl | he'
      · exact a' u b
      · exact c' hfalse e he'

/-- Visited invariant across the refined loop: as long as the run was
not aborted by the 404-induced `TypeError`, every dispatched entry's
URL ends up in `visited`. -/
theorem crawlLoop404_visited (env : ScraperEnv) (is404 : String → Bool)
    (cfg : ScraperConfig) :
    ∀ (fuel : Nat) (st : ScraperState),
      (∀ e ∈ st.fetchLog, e.1 ∈ st.visited) →
      (crawlLoop404 env is404 cfg fuel st).2 = false →
      ∀ e ∈ (crawlLoop404 env is404 cfg fuel st).1.fetchLog,
        e.1 ∈ (crawlLoop404 env is404 cfg fuel st).1.visited := by
  intro fuel
  induction fuel with
  | zero => exact fun st hvis _ => hvis
  | succ fuel ih =>
    intro st hvis
    rw [crawlLoop404]
    by_cases h1 : st.queue.isEmpty
    · rw [if_pos h1]; exact fun _ => hvis
    · rw [if_neg h1]
      by_cases h2 : capReached cfg st
      · rw [if_pos h2]; exact fun _ => hvis
      · rw [if_neg h2]
        by_cases h3 : (st.queue.take cfg.concurrentRequests).isEmpty
        · rw [if_pos h3]; exact fun _ => hvis
        · rw [if_neg h3]
          set batch := st.queue.take cfg.concurrentRequests with hbatch
          set rest := st.queue.drop cfg.concurrentRequests with hrest
          obtain ⟨a, b, c⟩ := processBatch404_effects env is404 cfg batch
            { st with queue := rest, fetchLog := st.fetchLog ++ batch }
          by_cases hcr : (processBatch404 env is404 cfg batch
              { st with queue := rest, fetchLog := st.fetchLog ++ batch }).2 = true
          · rw [if_pos hcr]
            exact fun hfalse => Bool.noConfusion (hcr.symm.trans hfalse)
          · rw [if_neg hcr]
            refine ih _ ?_
            intro e he
            rw [b] at he
            rcases List.mem_append.mp he with he' | he'
            · exact a _ (hvis e he')
            · have hcrf : (processBatch404 env is404 cfg batch
                  { st with queue := rest, fetchLog := st.fetchLog ++ batch }).2 = false := by
                cases hq : (processBatch404 env is404 cfg batch
                    { st with queue := rest, fetchLog := st.fetchLog ++ batch }).2
                · rfl
                · exact absurd hq hcr
              exact c hcrf e he'

/-- Visited completeness for a whole non-aborted `crawl404` run, with
no assumption on the seed URLs. -/
theorem crawl404_visited (env : ScraperEnv) (is404 : String → Bool)
    (cfg : ScraperConfig) (fuel : Nat) (startUrls : Option (List String))
    (pre : ScraperState) :
    (crawl404 env is404 cfg fuel startUrls pre).2 = false →
    ∀ e ∈ (crawl404 env is404 cfg fuel startUrls pre).1.fetchLog,
      e.1 ∈ (crawl404 env is404 cfg fuel startUrls pre).1.visited := by
  have hl0 : (initState env cfg startUrls pre).fetchLog = [] := rfl
  exact crawlLoop404_visited env is404 cfg fuel (initState env cfg startUrls pre)
    (by rw [hl0]; intro e he; cases he)

end Scraper

/-! ## Claim C1: no duplicate fetches -/

/-- C1 (counterexample): the claim states that in every crawl run each
distinct URL is fetched at most once because every producer passes the
visited/queued/pending guard. The seed path of
`DocumentationScraper.crawl` appends the start URLs to the queue
without any deduplication, so a run started with duplicate start URLs
dispatches the same URL to `download_page` twice. -/
theorem c1_counterexample_duplicate_start_urls :
    ((Scraper.crawl
      { downloadPage := fun _ => ("t", "h", []),
        is_valid_doc_url := fun _ => true,
        saveContent := fun _ _ _ => true }
      { baseUrl := "b", maxDepth := 1, maxPages := none, concurrentRequests := 2 }
      5 (some ["u", "u"]) {}).fetchLog.map Prod.fst = ["u", "u"]) ∧
    ¬ (((Scraper.crawl
      { downloadPage := fun _ => ("t", "h", []),
        is_valid_doc_url := fun _ => true,
        saveContent := fun _ _ _ => true }
      { baseUrl := "b", maxDepth := 1, maxPages := none, concurrentRequests := 2 }
      5 (some ["u", "u"]) {}).fetchLog.map Prod.fst).Nodup) := by
  constructor
  · rfl
  · decide

/-- C1 (amended): every URL that enters the frontier through the
link-discovery guard enters it at most once (the guard checks `visited`,
`queued` and the pending queue, and `queued` is never cleared during a
run), so `Crawler.crawl` — whose only seed is the single base URL —
never dispatches a URL twice in a run, and neither does
`DocumentationScraper.crawl` whenever its effective start-URL list is
duplicate-free; the scraper's seed path alone bypasses the guard. -/
theorem c1_amended_no_duplicate_fetches :
    (∀ (fetcher : String → CrawlerFetch) (cfg : CrawlerConfig) (fuel : Nat)
      (st : CrawlerState),
      ((Crawler.crawl fetcher cfg fuel st).fetchLog.map Prod.fst).Nodup) ∧
    (∀ (env : ScraperEnv) (cfg : ScraperConfig) (fuel : Nat)
      (startUrls : Option (List String)) (pre : ScraperState),
      (match startUrls with
        | some l => if l.isEmpty then [cfg.baseUrl] else l
        | none => [cfg.baseUrl]).Nodup →
      ((Scraper.crawl env cfg fuel startUrls pre).fetchLog.map Prod.fst).Nodup) :=
  ⟨fun fetcher cfg fuel st => (Crawler.crawl_spec fetcher cfg fuel st).1,
   fun env cfg fuel startUrls pre hnd => Scraper.crawl_nodup env cfg fuel startUrls pre hnd⟩

/-- C1 witness: the amended theorem applied to a run with two distinct
start URLs. -/
theorem c1_amended_no_duplicate_fetches_witness :
    ((Scraper.crawl
      { downloadPage := fun _ => ("t", "h", []),
        is_valid_doc_url := fun _ => true,
        saveContent := fun _ _ _ => true }
      { baseUrl := "b", maxDepth := 1, maxPages := none, concurrentRequests := 2 }
      5 (some ["a", "c"]) {}).fetchLog.map Prod.fst).Nodup :=
  c1_amended_no_duplicate_fetches.2
    { downloadPage := fun _ => ("t", "h", []),
      is_valid_doc_url := fun _ => true,
      saveContent := fun _ _ _ => true }
    { baseUrl := "b", maxDepth := 1, maxPages := none, concurrentRequests := 2 }
    5 (some ["a", "c"]) {} (by decide)

/-! ## Claim C2: page cap -/

/-- C2 (counterexample): the claim states `pagesDownloaded` never
exceeds `maxPages` even while a batch is folded in. The cap is tested
only in the `while` guard, at batch boundaries: with `max_pages = 2`
and `concurrent_requests = 3`, a base page linking to three pages lets
the second batch of three downloads run to completion, ending the run
with `pagesDownloaded = 4 > 2`. -/
theorem c2_counterexample_cap_overshoot :
    ({ baseUrl := "u0", maxDepth := 2, maxPages := some 2,
       concurrentRequests := 3 : CrawlerConfig }).maxPages = some 2 ∧
    (Crawler.crawl
      (fun u => if u = "u0" then CrawlerFetch.page "h" { doc := ["a", "b", "c"] }
        else CrawlerFetch.page "h" {})
      { baseUrl := "u0", maxDepth := 2, maxPages := some 2, concurrentRequests := 3 }
      10 {}).pagesDownloaded = 4 := by
  constructor
  · rfl
  · rfl

/-- C2 (amended): when `max_pages = some n`, the cap is enforced only at
batch boundaries: the loop stops as soon as `capReached` holds at a
boundary, and within one batch at most `concurrent_requests` further
pages can be counted, so `pagesDownloaded` never exceeds
`n - 1 + concurrent_requests` at any point of the run. -/
theorem c2_amended_cap_only_at_batch_boundaries (fetcher : String → CrawlerFetch)
    (cfg : CrawlerConfig) (fuel : Nat) (st : CrawlerState) (n : Nat)
    (hmax : cfg.maxPages = some n) :
    (Crawler.crawl fetcher cfg fuel st).pagesDownloaded ≤ n - 1 + cfg.concurrentRequests ∧
    (∀ st' : CrawlerState, Crawler.capReached cfg st' = true →
      Crawler.crawlLoop fetcher cfg fuel st' = st') := by
  constructor
  · exact Crawler.crawlLoop_pages_le fetcher cfg n hmax fuel _ (Nat.zero_le _)
  · exact fun st' h => Crawler.crawlLoop_stops_at_cap fetcher cfg fuel st' h

/-- C2 witness: the amended bound applied to a concrete configuration. -/
theorem c2_amended_cap_only_at_batch_boundaries_witness :
    ({ baseUrl := "w", maxDepth := 1, maxPages := some 2,
       concurrentRequests := 3 : CrawlerConfig }).maxPages = some 2 ∧
    (Crawler.crawl (fun _ => CrawlerFetch.skipped)
      { baseUrl := "w", maxDepth := 1, maxPages := some 2, concurrentRequests := 3 }
      4 {}).pagesDownloaded ≤ 2 - 1 + 3 :=
  ⟨rfl, (c2_amended_cap_only_at_batch_boundaries (fun _ => CrawlerFetch.skipped)
    { baseUrl := "w", maxDepth := 1, maxPages := some 2, concurrentRequests := 3 }
    4 {} 2 rfl).1⟩

/-! ## Claim C4: depth bound -/

/-- C4: in both crawl loops the enqueue guard admits a link discovered
at depth `d` only when `d < max_depth`, appending it at `d + 1`, and
the seeds enter at depth 0, so every frontier entry and every entry
dispatched to a fetch respects `depth ≤ max_depth` — no page is fetched
from a frontier entry deeper than the bound. -/
theorem c4_depth_bound :
    (∀ (fetcher : String → CrawlerFetch) (cfg : CrawlerConfig) (fuel : Nat)
      (st : CrawlerState),
      (∀ e ∈ (Crawler.crawl fetcher cfg fuel st).fetchLog, e.2 ≤ cfg.maxDepth) ∧
      (∀ e ∈ (Crawler.crawl fetcher cfg fuel st).docQueue, e.2 ≤ cfg.maxDepth)) ∧
    (∀ (env : ScraperEnv) (cfg : ScraperConfig) (fuel : Nat)
      (startUrls : Option (List String)) (pre : ScraperState),
      (∀ e ∈ (Scraper.crawl env cfg fuel startUrls pre).fetchLog, e.2 ≤ cfg.maxDepth) ∧
      (∀ e ∈ (Scraper.crawl env cfg fuel startUrls pre).queue, e.2 ≤ cfg.maxDepth)) :=
  ⟨fun fetcher cfg fuel st =>
    ⟨(Crawler.crawl_spec fetcher cfg fuel st).2.1,
     (Crawler.crawl_spec fetcher cfg fuel st).2.2.1⟩,
   fun env cfg fuel startUrls pre =>
    ⟨(Scraper.crawl_effects env cfg fuel startUrls pre).1,
     (Scraper.crawl_effects env cfg fuel startUrls pre).2.2⟩⟩

/-- C4 witness: the bound applied to the seed entry of a concrete run. -/
theorem c4_depth_bound_witness :
    ("u", 0) ∈ (Crawler.crawl (fun _ => CrawlerFetch.skipped)
      { baseUrl := "u", maxDepth := 0, maxPages := none, concurrentRequests := 1 }
      3 {}).fetchLog ∧
    (("u", 0) : String × Nat).2 ≤ 0 :=
  ⟨by decide,
   (c4_depth_bound.1 (fun _ => CrawlerFetch.skipped)
     { baseUrl := "u", maxDepth := 0, maxPages := none, concurrentRequests := 1 }
     3 {}).1 ("u", 0) (by decide)⟩

/-! ## Claim C8: state reset at the start of `crawl()` -/

/-- C8 (counterexample): the claim states every `crawl()` call resets
the entire crawl state, so a second call behaves like a fresh crawl.
`DocumentationScraper.crawl` resets `visited`, `failed_urls` and both
counters but never clears `self.queued`: a first run that discovered
link `x` leaves `x` in `queued`, and a second run on the same instance
then refuses to enqueue `x` — it fetches only the seed instead of the
seed and `x` as a fresh crawl does. -/
theorem c8_counterexample_scraper_queued_not_reset :
    ((Scraper.crawl
      { downloadPage := fun u => if u = "s" then ("t", "h", ["x"]) else ("t", "h", []),
        is_valid_doc_url := fun _ => true,
        saveContent := fun _ _ _ => true }
      { baseUrl := "s", maxDepth := 2, maxPages := none, concurrentRequests := 1 }
      10 none {}).fetchLog.map Prod.fst = ["s", "x"]) ∧
    ((Scraper.crawl
      { downloadPage := fun u => if u = "s" then ("t", "h", ["x"]) else ("t", "h", []),
        is_valid_doc_url := fun _ => true,
        saveContent := fun _ _ _ => true }
      { baseUrl := "s", maxDepth := 2, maxPages := none, concurrentRequests := 1 }
      10 none
      (Scraper.crawl
        { downloadPage := fun u => if u = "s" then ("t", "h", ["x"]) else ("t", "h", []),
          is_valid_doc_url := fun _ => true,
          saveContent := fun _ _ _ => true }
        { baseUrl := "s", maxDepth := 2, maxPages := none, concurrentRequests := 1 }
        10 none {})).fetchLog.map Prod.fst = ["s"]) := by
  constructor
  · rfl
  · rfl

/-- C8 (amended): `Crawler.crawl` resets every piece of crawl state at
entry (visited, queued, failed map, the four category sets, the page
counter), so its result is independent of the instance state it starts
from; `DocumentationScraper.crawl` resets `visited`, `failed_urls` and
the two counters but only extends `queued`, which survives from
previous runs. -/
theorem c8_amended_reset_semantics :
    (∀ (fetcher : String → CrawlerFetch) (cfg : CrawlerConfig) (fuel : Nat)
      (s1 s2 : CrawlerState),
      Crawler.crawl fetcher cfg fuel s1 = Crawler.crawl fetcher cfg fuel s2) ∧
    (∀ (env : ScraperEnv) (cfg : ScraperConfig) (startUrls : Option (List String))
      (pre : ScraperState),
      (Scraper.initState env cfg startUrls pre).visited = [] ∧
      (Scraper.initState env cfg startUrls pre).failedUrls = [] ∧
      (Scraper.initState env cfg startUrls pre).pagesDownloaded = 0 ∧
      (Scraper.initState env cfg startUrls pre).assetsDownloaded = 0 ∧
      (∀ u ∈ pre.queued, u ∈ (Scraper.initState env cfg startUrls pre).queued)) :=
  ⟨fun _ _ _ _ _ => rfl,
   fun _ _ _ _ =>
    ⟨rfl, rfl, rfl, rfl, fun _ hu => mem_updateSet_of_mem hu⟩⟩

/-- C8 witness: a URL left in `queued` by a previous run is still in
`queued` right after the scraper's reset prologue. -/
theorem c8_amended_reset_semantics_witness :
    "q" ∈ ({ queued := ["q"] } : ScraperState).queued ∧
    "q" ∈ (Scraper.initState
      { downloadPage := fun _ => ("", "", []),
        is_valid_doc_url := fun _ => true,
        saveContent := fun _ _ _ => true }
      { baseUrl := "b", maxDepth := 1, maxPages := none, concurrentRequests := 1 }
      none { queued := ["q"] }).queued :=
  ⟨by decide,
   (c8_amended_reset_semantics.2
     { downloadPage := fun _ => ("", "", []),
       is_valid_doc_url := fun _ => true,
       saveContent := fun _ _ _ => true }
     { baseUrl := "b", maxDepth := 1, maxPages := none, concurrentRequests := 1 }
     none { queued := ["q"] }).2.2.2.2 "q" (by decide)⟩

/-! ## Claim C10: every dispatched URL becomes visited, no re-attempt -/

/-- C10 counterexample, against "every URL dispatched in a batch is
added to the visited set when its fetch task completes ... consequently
a URL whose download failed ... is never re-attempted later in the same
crawl run", for `DocumentationScraper.crawl`. First run: the seed "s"
links to "a" and "b", both dispatched in the second batch; "a"'s
download returns the 404 triple `(None, None, None)` (scraper.py
1051-1054), so processing it reaches `for link in links` with `links =
None` and the `TypeError` (scraper.py 1412) aborts the run (flag
`true`) — "b" was dispatched (it is in the log) yet is not in
`visited`. Second run: duplicate start URLs are seeded without
deduplication (scraper.py 1300-1313), so with concurrency 1 the URL
"u", whose download failed (the `("", "", [])` error return), is
dispatched again in a later batch: the log is `[("u",0), ("u",0)]`. -/
theorem c10_counterexample_abort_and_reattempt :
    (Scraper.crawl404
      { downloadPage := fun u => if u = "s" then ("t", "h", ["a", "b"]) else ("t", "h", []),
        is_valid_doc_url := fun _ => true,
        saveContent := fun _ _ _ => true }
      (fun u => u == "a")
      { baseUrl := "s", maxDepth := 2, maxPages := none, concurrentRequests := 2 }
      5 none {}).2 = true ∧
    ("b", 1) ∈ (Scraper.crawl404
      { downloadPage := fun u => if u = "s" then ("t", "h", ["a", "b"]) else ("t", "h", []),
        is_valid_doc_url := fun _ => true,
        saveContent := fun _ _ _ => true }
      (fun u => u == "a")
      { baseUrl := "s", maxDepth := 2, maxPages := none, concurrentRequests := 2 }
      5 none {}).1.fetchLog ∧
    "b" ∉ (Scraper.crawl404
      { downloadPage := fun u => if u = "s" then ("t", "h", ["a", "b"]) else ("t", "h", []),
        is_valid_doc_url := fun _ => true,
        saveContent := fun _ _ _ => true }
      (fun u => u == "a")
      { baseUrl := "s", maxDepth := 2, maxPages := none, concurrentRequests := 2 }
      5 none {}).1.visited ∧
    (Scraper.crawl
      { downloadPage := fun _ => ("", "", []),
        is_valid_doc_url := fun _ => true,
        saveContent := fun _ _ _ => true }
      { baseUrl := "b", maxDepth := 1, maxPages := none, concurrentRequests := 1 }
      5 (some ["u", "u"]) {}).fetchLog = [("u", 0), ("u", 0)] := by
  refine ⟨rfl, by decide, by decide, rfl⟩

/-- C10 (amended): in `Crawler.crawl`, `visited.add(url)` runs
unconditionally when a dispatched fetch completes — download success,
filter rejection and failure alike — so every URL in the dispatch log
belongs to `visited`, and the `queued` guard ensures no URL (in
particular no failed URL) is dispatched a second time in the same run.
In `DocumentationScraper.crawl` the visited guarantee holds exactly for
runs not aborted by the 404 path: in any run of the refined model whose
abort flag is `false`, every dispatched URL belongs to `visited`; an
aborted run leaves already-dispatched batch members unvisited, and
duplicate seeds re-dispatch a URL, as the counterexample shows. -/
theorem c10_amended_dispatched_visited :
    (∀ (fetcher : String → CrawlerFetch) (cfg : CrawlerConfig) (fuel : Nat)
      (st : CrawlerState),
      ∀ e ∈ (Crawler.crawl fetcher cfg fuel st).fetchLog,
        e.1 ∈ (Crawler.crawl fetcher cfg fuel st).visited) ∧
    (∀ (fetcher : String → CrawlerFetch) (cfg : CrawlerConfig) (fuel : Nat)
      (st : CrawlerState) (u : String),
      ((Crawler.crawl fetcher cfg fuel st).fetchLog.map Prod.fst).count u ≤ 1) ∧
    (∀ (env : ScraperEnv) (is404 : String → Bool) (cfg : ScraperConfig)
      (fuel : Nat) (startUrls : Option (List String)) (pre : ScraperState),
      (Scraper.crawl404 env is404 cfg fuel startUrls pre).2 = false →
      ∀ e ∈ (Scraper.crawl404 env is404 cfg fuel startUrls pre).1.fetchLog,
        e.1 ∈ (Scraper.crawl404 env is404 cfg fuel startUrls pre).1.visited) :=
  ⟨fun fetcher cfg fuel st => (Crawler.crawl_spec fetcher cfg fuel st).2.2.2,
   fun fetcher cfg fuel st u =>
    List.nodup_iff_count_le_one.mp (Crawler.crawl_spec fetcher cfg fuel st).1 u,
   fun env is404 cfg fuel startUrls pre =>
    Scraper.crawl404_visited env is404 cfg fuel startUrls pre⟩

/-- C10 witness: a dispatched URL of a concrete failed crawler run is
in `visited`, and so is the seed of a concrete non-aborted scraper run. -/
theorem c10_amended_dispatched_visited_witness :
    "v" ∈ (Crawler.crawl (fun _ => CrawlerFetch.failed "boom")
      { baseUrl := "v", maxDepth := 1, maxPages := none, concurrentRequests := 2 }
      3 {}).visited ∧
    "s" ∈ (Scraper.crawl404
      { downloadPage := fun _ => ("t", "h", []),
        is_valid_doc_url := fun _ => true,
        saveContent := fun _ _ _ => true }
      (fun _ => false)
      { baseUrl := "s", maxDepth := 1, maxPages := none, concurrentRequests := 2 }
      3 none {}).1.visited :=
  ⟨c10_amended_dispatched_visited.1 (fun _ => CrawlerFetch.failed "boom")
     { baseUrl := "v", maxDepth := 1, maxPages := none, concurrentRequests := 2 }
     3 {} ("v", 0) (by decide),
   c10_amended_dispatched_visited.2.2
     { downloadPage := fun _ => ("t", "h", []),
       is_valid_doc_url := fun _ => true,
       saveContent := fun _ _ _ => true }
     (fun _ => false)
     { baseUrl := "s", maxDepth := 1, maxPages := none, concurrentRequests := 2 }
     3 none {} rfl ("s", 0) (by decide)⟩

end DocScraper
